import Mathlib

/-! The propublica program: a string service and a nonprofit-search proxy.

A shallow embedding of `propublica.go` (and of `main.go`, whose string
service, endpoints and decoders are the same text) together with the parts of
the Go standard library that the program calls: `unicode/utf8`, `strings`,
`unicode.ToUpper` and the `encoding/json` stream decoder.

A Go `string` is a sequence of bytes; it is modelled as a list of naturals,
each below 256.  A Go `error` value is modelled by its message, and a `nil`
error by `none`.  What the program reaches outside itself (the Unicode case
table, the HTTP GET, the decoding of the search API's answer) is a parameter,
the structure `World`.  Loops of the library are written with a bound on the
number of steps, which the length of the input always covers.
-/

set_option autoImplicit false

/-- A Go string: its bytes, in order. -/
abbrev GoString := List Nat

/-- A non-nil Go `error`, identified by the text `Error()` returns. -/
structure GoError where
  msg : GoString
deriving DecidableEq, Repr

/-- The bytes of a literal written with ASCII characters only. -/
def lit (s : String) : GoString := s.toList.map Char.toNat

/-- Every byte is below `utf8.RuneSelf`, that is, the string is ASCII. -/
def isASCII (s : GoString) : Prop := ∀ b ∈ s, b < 128

instance (s : GoString) : Decidable (isASCII s) := by
  unfold isASCII; infer_instance

/-! ## unicode/utf8 -/

namespace utf8

/-- The "error" rune, U+FFFD. -/
def RuneError : Nat := 0xFFFD

/-- Bytes below `RuneSelf` are runes of one byte. -/
def RuneSelf : Nat := 0x80

/-- The largest valid code point. -/
def MaxRune : Nat := 0x10FFFF

/-- The table `first`: for a leading byte, `0xF0` for ASCII, `0xF1` for a byte
that cannot start a sequence, else the accept-range index in the high nibble
and the sequence length in the low three bits. -/
def first (b : Nat) : Nat :=
  if b < 0x80 then 0xF0
  else if b < 0xC2 then 0xF1
  else if b ≤ 0xDF then 0x02
  else if b = 0xE0 then 0x13
  else if b ≤ 0xEC then 0x03
  else if b = 0xED then 0x23
  else if b ≤ 0xEF then 0x03
  else if b = 0xF0 then 0x34
  else if b ≤ 0xF3 then 0x04
  else if b = 0xF4 then 0x44
  else 0xF1

/-- The table `acceptRanges`: the bounds allowed for the second byte. -/
def acceptRanges (i : Nat) : Nat × Nat :=
  match i with
  | 0 => (0x80, 0xBF)
  | 1 => (0xA0, 0xBF)
  | 2 => (0x80, 0x9F)
  | 3 => (0x90, 0xBF)
  | 4 => (0x80, 0x8F)
  | _ => (0, 0)

/-- The function `utf8.DecodeRuneInString`: the first rune of `s` and its width
in bytes; `(RuneError, 0)` on the empty string and `(RuneError, 1)` on a byte
that starts no valid encoding.  Masking with `0x1F`, `0x0F`, `0x07`, `0x3F` is
written as a remainder and a left shift as a product. -/
def DecodeRuneInString (s : GoString) : Nat × Nat :=
  match s with
  | [] => (RuneError, 0)
  | s0 :: t =>
    let x := first s0
    if x ≥ 0xF0 then
      if x = 0xF0 then (s0, 1) else (RuneError, 1)
    else
      let sz := x % 8
      let accept := acceptRanges (x / 16)
      if t.length + 1 < sz then (RuneError, 1)
      else
        match t with
        | [] => (RuneError, 1)
        | s1 :: t1 =>
          if s1 < accept.1 ∨ accept.2 < s1 then (RuneError, 1)
          else if sz ≤ 2 then ((s0 % 32) * 64 + s1 % 64, 2)
          else
            match t1 with
            | [] => (RuneError, 1)
            | s2 :: t2 =>
              if s2 < 0x80 ∨ 0xBF < s2 then (RuneError, 1)
              else if sz ≤ 3 then ((s0 % 16) * 4096 + (s1 % 64) * 64 + s2 % 64, 3)
              else
                match t2 with
                | [] => (RuneError, 1)
                | s3 :: _ =>
                  if s3 < 0x80 ∨ 0xBF < s3 then (RuneError, 1)
                  else ((s0 % 8) * 262144 + (s1 % 64) * 4096 + (s2 % 64) * 64 + s3 % 64, 4)

/-- The function `utf8.EncodeRune` (also `AppendRune`, `Builder.WriteRune`): the
UTF-8 bytes of a rune; a surrogate or a value above `MaxRune` is written as
`RuneError`. -/
def EncodeRune (r : Nat) : GoString :=
  if r ≤ 0x7F then [r]
  else if r ≤ 0x7FF then [0xC0 + r / 64, 0x80 + r % 64]
  else if r > MaxRune ∨ (0xD800 ≤ r ∧ r ≤ 0xDFFF) then [0xEF, 0xBF, 0xBD]
  else if r ≤ 0xFFFF then [0xE0 + r / 4096, 0x80 + (r / 64) % 64, 0x80 + r % 64]
  else [0xF0 + r / 262144, 0x80 + (r / 4096) % 64, 0x80 + (r / 64) % 64, 0x80 + r % 64]

/-- The loop of `utf8.RuneCountInString`, one decoded rune at a time. -/
def runeCountLoop : Nat → GoString → Nat
  | 0, _ => 0
  | _ + 1, [] => 0
  | fuel + 1, c :: t =>
    1 + runeCountLoop fuel ((c :: t).drop (DecodeRuneInString (c :: t)).2)

/-- The function `utf8.RuneCountInString`. -/
def RuneCountInString (s : GoString) : Nat := runeCountLoop s.length s

/-- The loop of the conversion `[]rune(s)`, which is also the order in which
`for _, c := range s` visits the runes of `s`. -/
def runesLoop : Nat → GoString → List Nat
  | 0, _ => []
  | _ + 1, [] => []
  | fuel + 1, c :: t =>
    (DecodeRuneInString (c :: t)).1 ::
      runesLoop fuel ((c :: t).drop (DecodeRuneInString (c :: t)).2)

/-- The conversion `[]rune(s)`: the runes of `s`, an encoding error counting as
`RuneError`. -/
def runes (s : GoString) : List Nat := runesLoop s.length s

/-- The loop of `utf8.ValidString`: no position decodes to an encoding
error. -/
def validLoop : Nat → GoString → Bool
  | 0, s => s.isEmpty
  | _ + 1, [] => true
  | fuel + 1, c :: t =>
    let d := DecodeRuneInString (c :: t)
    if d.1 = RuneError ∧ d.2 = 1 then false
    else validLoop fuel ((c :: t).drop d.2)

/-- The function `utf8.ValidString`. -/
def ValidString (s : GoString) : Bool := validLoop s.length s

end utf8

/-! ## unicode -/

namespace unicode

/-- The function `unicode.ToUpper`.  The ASCII branch is the library's own
code; `upperCase` stands for `unicode.To(unicode.UpperCase, r)`, the lookup in
the Unicode case table `CaseRanges`. -/
def ToUpper (upperCase : Nat → Nat) (r : Nat) : Nat :=
  if r ≤ 0x7F then
    if 0x61 ≤ r ∧ r ≤ 0x7A then r - (0x61 - 0x41) else r
  else upperCase r

end unicode

/-! ## strings -/

namespace strings

/-- The function `strings.HasPrefix`. -/
def HasPrefix : GoString → GoString → Bool
  | _, [] => true
  | [], _ :: _ => false
  | a :: s, b :: p => a = b && HasPrefix s p

/-- The function `strings.Index`: the offset of the first instance of `sub` in
`s`, or `-1`. -/
def Index : GoString → GoString → Int
  | [], sub => if sub = [] then 0 else -1
  | c :: t, sub =>
    if HasPrefix (c :: t) sub then 0
    else
      let i := Index t sub
      if i < 0 then -1 else i + 1

/-- The loop of `strings.Count` for a non-empty `sub`: non-overlapping
instances, found with `Index`. -/
def countLoop (sub : GoString) : Nat → GoString → Nat
  | 0, _ => 0
  | fuel + 1, s =>
    let i := Index s sub
    if i < 0 then 0
    else 1 + countLoop sub fuel (s.drop (i.toNat + sub.length))

/-- The function `strings.Count`. -/
def Count (s sub : GoString) : Nat :=
  if sub = [] then utf8.RuneCountInString s + 1
  else countLoop sub (s.length + 1) s

/-- The replacement loop of `strings.Replace`, run `n` times on what is left
of the string from `start` on; `i` is the number of the iteration.  With an
empty `old` the match is empty and, after the first one, lies one rune
further. -/
def replaceLoop (old new : GoString) : Nat → Nat → GoString → GoString
  | 0, _, rest => rest
  | n + 1, i, rest =>
    let j : Int :=
      if old = [] then
        if i > 0 then (utf8.DecodeRuneInString rest).2 else 0
      else Index rest old
    rest.take j.toNat ++ new ++
      replaceLoop old new n (i + 1) (rest.drop (j.toNat + old.length))

/-- The function `strings.Replace`: `s` with the first `n` non-overlapping
instances of `old` replaced by `new`, all of them when `n < 0`. -/
def Replace (s old new : GoString) (n : Int) : GoString :=
  if old = new ∨ n = 0 then s
  else
    let m := Count s old
    if m = 0 then s
    else
      let k := if n < 0 ∨ (m : Int) < n then m else n.toNat
      replaceLoop old new k 0 s

/-- The second loop of `strings.Map`: every rune of what is left is mapped and
written out. -/
def mapTail (mapping : Nat → Nat) : Nat → GoString → GoString
  | 0, _ => []
  | _ + 1, [] => []
  | fuel + 1, c :: t =>
    let d := utf8.DecodeRuneInString (c :: t)
    utf8.EncodeRune (mapping d.1) ++ mapTail mapping fuel ((c :: t).drop d.2)

/-- The first loop of `strings.Map`: runes are kept as they are up to the first
one that the mapping changes or that is an encoding error; from there on the
output is built rune by rune. -/
def mapHead (mapping : Nat → Nat) : Nat → GoString → GoString
  | 0, s => s
  | _ + 1, [] => []
  | fuel + 1, c :: t =>
    let d := utf8.DecodeRuneInString (c :: t)
    let r := mapping d.1
    if r = d.1 ∧ (d.1 ≠ utf8.RuneError ∨ d.2 ≠ 1) then
      (c :: t).take d.2 ++ mapHead mapping fuel ((c :: t).drop d.2)
    else
      utf8.EncodeRune r ++ mapTail mapping fuel ((c :: t).drop d.2)

/-- The function `strings.Map` for a mapping that drops no rune. -/
def Map (mapping : Nat → Nat) (s : GoString) : GoString :=
  mapHead mapping s.length s

/-- The function `strings.ToUpper`: an ASCII string is handled byte by byte,
any other goes through `Map(unicode.ToUpper, s)`. -/
def ToUpper (upperCase : Nat → Nat) (s : GoString) : GoString :=
  if s.all (fun c => decide (c < utf8.RuneSelf)) then
    if !(s.any (fun c => decide (0x61 ≤ c ∧ c ≤ 0x7A))) then s
    else s.map (fun c => if 0x61 ≤ c ∧ c ≤ 0x7A then c - (0x61 - 0x41) else c)
  else Map (unicode.ToUpper upperCase) s

end strings

/-- The upper-case counterpart of an ASCII lower-case letter; any other byte
as it is. -/
def asciiUpper (c : Nat) : Nat :=
  if 0x61 ≤ c ∧ c ≤ 0x7A then c - 0x20 else c

/-! ## The string service -/

/-- The package variable `ErrEmpty`. -/
def ErrEmpty : GoError := ⟨lit "empty string"⟩

/-- The method `stringService.Uppercase`: the value and the error. -/
def Uppercase (upperCase : Nat → Nat) (s : GoString) : GoString × Option GoError :=
  if s = [] then ([], some ErrEmpty)
  else (strings.ToUpper upperCase s, none)

/-- The method `stringService.Concat`. -/
def Concat (s : GoString) : GoString × Option GoError :=
  if s = [] then ([], some ErrEmpty)
  else (strings.Replace s (lit " ") (lit "") (-1), none)

/-- The method `stringService.Count`. -/
def Count (s : GoString) : Int := s.length

/-! ## encoding/json: the stream decoder -/

namespace json

/-- A parsed JSON value; a number keeps its text, a string is unquoted. -/
inductive JValue where
  | null : JValue
  | bool : Bool → JValue
  | number : GoString → JValue
  | string : GoString → JValue
  | array : List JValue → JValue
  | object : List (GoString × JValue) → JValue
deriving Repr

/-- The error `io.EOF`: no value at all before the end of the input. -/
def errEOF : GoError := ⟨lit "EOF"⟩

/-- The error `io.ErrUnexpectedEOF`: the input ends inside a value. -/
def errUnexpectedEOF : GoError := ⟨lit "unexpected EOF"⟩

/-- A `*json.SyntaxError`; the offending byte and the offset are left out of
the text. -/
def errSyntax : GoError := ⟨lit "invalid character"⟩

/-- The scanner's error past `maxNestingDepth`. -/
def errDepth : GoError := ⟨lit "exceeded max depth"⟩

/-- A `*json.UnmarshalTypeError`; the value and the Go type are left out of the
text. -/
def errType : GoError := ⟨lit "json: cannot unmarshal"⟩

/-- Returned by the model alone, when the recursion bound is used up. -/
def errFuel : GoError := ⟨lit "out of fuel"⟩

/-- The scanner's `maxNestingDepth`. -/
def maxNestingDepth : Nat := 10000

/-- The scanner's `isSpace`. -/
def isSpace (c : Nat) : Bool := c = 0x20 || c = 0x09 || c = 0x0D || c = 0x0A

/-- Leading white space is passed over. -/
def skipSpace : GoString → GoString
  | [] => []
  | c :: t => if isSpace c then skipSpace t else c :: t

/-- The error for a byte that was needed and is wrong or missing. -/
def errAt (s : GoString) : GoError :=
  if s = [] then errUnexpectedEOF else errSyntax

/-- The value of a hexadecimal digit. -/
def hexVal (c : Nat) : Option Nat :=
  if 0x30 ≤ c ∧ c ≤ 0x39 then some (c - 0x30)
  else if 0x61 ≤ c ∧ c ≤ 0x66 then some (c - 0x61 + 10)
  else if 0x41 ≤ c ∧ c ≤ 0x46 then some (c - 0x41 + 10)
  else none

/-- The function `getu4`: the number in a leading `\uXXXX`, if there is one. -/
def getu4 (s : GoString) : Option Nat :=
  match s with
  | 0x5C :: 0x75 :: a :: b :: c :: d :: _ =>
    match hexVal a, hexVal b, hexVal c, hexVal d with
    | some a, some b, some c, some d => some (((a * 16 + b) * 16 + c) * 16 + d)
    | _, _, _, _ => none
  | _ => none

/-- The function `utf16.IsSurrogate`. -/
def isSurrogate (r : Nat) : Bool := 0xD800 ≤ r && r < 0xE000

/-- The function `utf16.DecodeRune`: the code point of a surrogate pair, or
U+FFFD. -/
def utf16DecodeRune (r1 r2 : Nat) : Nat :=
  if 0xD800 ≤ r1 ∧ r1 < 0xDC00 ∧ 0xDC00 ≤ r2 ∧ r2 < 0xE000 then
    (r1 - 0xD800) * 1024 + (r2 - 0xDC00) + 0x10000
  else utf8.RuneError

/-- The byte a one-letter escape stands for. -/
def simpleEscape (c : Nat) : Option Nat :=
  if c = 0x22 ∨ c = 0x5C ∨ c = 0x2F then some c
  else if c = 0x62 then some 0x08
  else if c = 0x66 then some 0x0C
  else if c = 0x6E then some 0x0A
  else if c = 0x72 then some 0x0D
  else if c = 0x74 then some 0x09
  else none

/-- A string literal from just after its opening quote: the scanner's
`stateInString` and `unquote` in one pass.  The result is the unquoted text and
what follows the closing quote. -/
def parseString : Nat → GoString → Except GoError (GoString × GoString)
  | 0, _ => .error errFuel
  | _ + 1, [] => .error errUnexpectedEOF
  | fuel + 1, c :: t =>
    if c = 0x22 then .ok ([], t)
    else if c = 0x5C then
      match t with
      | [] => .error errUnexpectedEOF
      | e :: t1 =>
        if e = 0x75 then
          match getu4 (c :: t) with
          | none => .error (errAt ((t1.take 4).dropWhile (fun h => (hexVal h).isSome)
              ++ t1.drop 4))
          | some rr =>
            let t2 := t1.drop 4
            let pair := (getu4 t2).map (utf16DecodeRune rr)
            if isSurrogate rr then
              match pair with
              | some dec =>
                if dec ≠ utf8.RuneError then
                  (parseString fuel (t2.drop 6)).map
                    (fun p => (utf8.EncodeRune dec ++ p.1, p.2))
                else
                  (parseString fuel t2).map
                    (fun p => (utf8.EncodeRune utf8.RuneError ++ p.1, p.2))
              | none =>
                (parseString fuel t2).map
                  (fun p => (utf8.EncodeRune utf8.RuneError ++ p.1, p.2))
            else
              (parseString fuel t2).map (fun p => (utf8.EncodeRune rr ++ p.1, p.2))
        else
          match simpleEscape e with
          | none => .error errSyntax
          | some b => (parseString fuel t1).map (fun p => (b :: p.1, p.2))
    else if c < 0x20 then .error errSyntax
    else if c < utf8.RuneSelf then
      (parseString fuel t).map (fun p => (c :: p.1, p.2))
    else
      let d := utf8.DecodeRuneInString (c :: t)
      (parseString fuel ((c :: t).drop d.2)).map
        (fun p => (utf8.EncodeRune d.1 ++ p.1, p.2))

/-- A decimal digit. -/
def isDigit (c : Nat) : Bool := 0x30 ≤ c && c ≤ 0x39

/-- The longest run of leading digits and what follows it. -/
def spanDigits : GoString → GoString × GoString
  | [] => ([], [])
  | c :: t => if isDigit c then ((spanDigits t).map (c :: ·) id) else ([], c :: t)

/-- One digit at least: the scanner's states after `.`, `e` and a sign. -/
def digits1 (s : GoString) : Except GoError (GoString × GoString) :=
  match s with
  | c :: _ => if isDigit c then .ok (spanDigits s) else .error errSyntax
  | [] => .error errUnexpectedEOF

/-- The integer part of a number: `0`, or a digit from one to nine and any
digits. -/
def parseInt (s : GoString) : Except GoError (GoString × GoString) :=
  match s with
  | [] => .error errUnexpectedEOF
  | c :: t =>
    if c = 0x30 then .ok ([c], t)
    else if 0x31 ≤ c ∧ c ≤ 0x39 then .ok (spanDigits (c :: t))
    else .error errSyntax

/-- The optional fraction. -/
def parseFrac (s : GoString) : Except GoError (GoString × GoString) :=
  match s with
  | 0x2E :: t => (digits1 t).map (fun p => (0x2E :: p.1, p.2))
  | _ => .ok ([], s)

/-- The optional exponent. -/
def parseExp (s : GoString) : Except GoError (GoString × GoString) :=
  match s with
  | c :: t =>
    if c = 0x65 ∨ c = 0x45 then
      match t with
      | sg :: t1 =>
        if sg = 0x2B ∨ sg = 0x2D then (digits1 t1).map (fun p => (c :: sg :: p.1, p.2))
        else (digits1 t).map (fun p => (c :: p.1, p.2))
      | [] => .error errUnexpectedEOF
    else .ok ([], s)
  | [] => .ok ([], s)

/-- A number without its sign: integer part, fraction, exponent. -/
def parseUnsigned (s : GoString) : Except GoError (GoString × GoString) :=
  match parseInt s with
  | .error e => .error e
  | .ok (i, r) =>
    match parseFrac r with
    | .error e => .error e
    | .ok (f, r1) =>
      match parseExp r1 with
      | .error e => .error e
      | .ok (x, r2) => .ok (i ++ f ++ x, r2)

/-- A number: its text and what follows it. -/
def parseNumber (s : GoString) : Except GoError (GoString × GoString) :=
  match s with
  | 0x2D :: t => (parseUnsigned t).map (fun p => (0x2D :: p.1, p.2))
  | _ => parseUnsigned s

/-- The rest of a literal name (`true`, `false`, `null`) after its first
byte. -/
def expectBytes : GoString → GoString → Except GoError GoString
  | [], s => .ok s
  | _ :: _, [] => .error errUnexpectedEOF
  | w :: ws, c :: t => if c = w then expectBytes ws t else .error errSyntax

mutual

/-- One value, at the given nesting depth, from its first byte on. -/
def parseValue : Nat → Nat → GoString → Except GoError (JValue × GoString)
  | 0, _, _ => .error errFuel
  | _ + 1, _, [] => .error errUnexpectedEOF
  | fuel + 1, depth, c :: t =>
    if c = 0x7B then
      if depth + 1 > maxNestingDepth then .error errDepth
      else
        match skipSpace t with
        | 0x7D :: r => .ok (.object [], r)
        | s => (parseMembers fuel (depth + 1) s).map (fun p => (.object p.1, p.2))
    else if c = 0x5B then
      if depth + 1 > maxNestingDepth then .error errDepth
      else
        match skipSpace t with
        | 0x5D :: r => .ok (.array [], r)
        | s => (parseElems fuel (depth + 1) s).map (fun p => (.array p.1, p.2))
    else if c = 0x22 then
      (parseString (t.length + 1) t).map (fun p => (.string p.1, p.2))
    else if c = 0x2D ∨ isDigit c then
      (parseNumber (c :: t)).map (fun p => (.number p.1, p.2))
    else if c = 0x74 then (expectBytes (lit "rue") t).map (fun r => (.bool true, r))
    else if c = 0x66 then (expectBytes (lit "alse") t).map (fun r => (.bool false, r))
    else if c = 0x6E then (expectBytes (lit "ull") t).map (fun r => (.null, r))
    else .error errSyntax

/-- The elements of an array from the first byte of an element on, up to and
with the closing bracket. -/
def parseElems : Nat → Nat → GoString → Except GoError (List JValue × GoString)
  | 0, _, _ => .error errFuel
  | fuel + 1, depth, s =>
    match parseValue fuel depth s with
    | .error e => .error e
    | .ok (v, r) =>
      match skipSpace r with
      | [] => .error errUnexpectedEOF
      | c :: r1 =>
        if c = 0x5D then .ok ([v], r1)
        else if c = 0x2C then
          (parseElems fuel depth (skipSpace r1)).map (fun p => (v :: p.1, p.2))
        else .error errSyntax

/-- The members of an object from the opening quote of a key on, up to and
with the closing brace. -/
def parseMembers : Nat → Nat → GoString →
    Except GoError (List (GoString × JValue) × GoString)
  | 0, _, _ => .error errFuel
  | fuel + 1, depth, s =>
    match s with
    | [] => .error errUnexpectedEOF
    | q :: t =>
      if q ≠ 0x22 then .error errSyntax
      else
        match parseString (t.length + 1) t with
        | .error e => .error e
        | .ok (k, r) =>
          match skipSpace r with
          | [] => .error errUnexpectedEOF
          | col :: r1 =>
            if col ≠ 0x3A then .error errSyntax
            else
              match parseValue fuel depth (skipSpace r1) with
              | .error e => .error e
              | .ok (v, r2) =>
                match skipSpace r2 with
                | [] => .error errUnexpectedEOF
                | c :: r3 =>
                  if c = 0x7D then .ok ([(k, v)], r3)
                  else if c = 0x2C then
                    (parseMembers fuel depth (skipSpace r3)).map
                      (fun p => ((k, v) :: p.1, p.2))
                  else .error errSyntax

end

/-- The method `Decoder.readValue` on a fresh decoder: the next value of the
input and what follows it; `io.EOF` when only white space is left. -/
def readValue (body : GoString) : Except GoError (JValue × GoString) :=
  match skipSpace body with
  | [] => .error errEOF
  | s => parseValue (2 * s.length + 2) 0 s

/-- The function `equalFoldRight`, the fold that `encoding/json` uses for a
field name holding `s` or `k`: ASCII letters match in either case, the long s
(U+017F) matches `s` and the Kelvin sign (U+212A) matches `k`. -/
def equalFoldRight : GoString → GoString → Bool
  | [], t => t.isEmpty
  | _ :: _, [] => false
  | sb :: s, tb :: t =>
    if tb < utf8.RuneSelf then
      if sb ≠ tb then
        let sbUpper := Nat.land sb 0xDF
        if 0x41 ≤ sbUpper ∧ sbUpper ≤ 0x5A then
          if sbUpper ≠ Nat.land tb 0xDF then false else equalFoldRight s t
        else false
      else equalFoldRight s t
    else
      let d := utf8.DecodeRuneInString (tb :: t)
      if sb = 0x73 ∨ sb = 0x53 then
        if d.1 ≠ 0x17F then false else equalFoldRight s ((tb :: t).drop d.2)
      else if sb = 0x6B ∨ sb = 0x4B then
        if d.1 ≠ 0x212A then false else equalFoldRight s ((tb :: t).drop d.2)
      else false

/-- The key of an object member names the field: exactly, or up to case. -/
def matchesField (name key : GoString) : Bool :=
  key = name || equalFoldRight name key

/-- One member of an object stored into a struct whose only field is a string
named `name`: `st` is the field so far and the error saved so far. -/
def storeMember (name : GoString) (st : GoString × Option GoError)
    (m : GoString × JValue) : GoString × Option GoError :=
  if matchesField name m.1 then
    match m.2 with
    | .string s => (s, st.2)
    | .null => st
    | _ => (st.1, if st.2.isSome then st.2 else some errType)
  else st

/-- The method `decodeState.unmarshal` into a struct whose only field is a
string named `name` and holds `init`: the field afterwards and the error.
`null` stores nothing; a value that is no object, or a member of the wrong
type, is an `UnmarshalTypeError`. -/
def unmarshal (name : GoString) (init : GoString) (v : JValue) :
    GoString × Option GoError :=
  match v with
  | .null => (init, none)
  | .object ms => ms.foldl (storeMember name) (init, none)
  | _ => (init, some errType)

/-- The call `json.NewDecoder(body).Decode(&x)` for such a struct `x`: the next
value of the stream is read and stored; what follows it is left unread. -/
def Decode (name : GoString) (init : GoString) (body : GoString) :
    GoString × Option GoError :=
  match readValue body with
  | .error e => (init, some e)
  | .ok (v, _) => unmarshal name init v

/-- The function `json.Valid`: the input is one JSON value, with white space
around it at most. -/
def Valid (body : GoString) : Bool :=
  match readValue body with
  | .error _ => false
  | .ok (_, rest) => (skipSpace rest).isEmpty

end json

/-! ## Requests, responses and the values behind `interface{}` -/

/-- The struct `uppercaseRequest`. -/
structure uppercaseRequest where
  S : GoString
deriving DecidableEq, Repr

/-- The struct `uppercaseResponse`. -/
structure uppercaseResponse where
  V : GoString
  Err : GoString
deriving DecidableEq, Repr

/-- The struct `concatRequest`. -/
structure concatRequest where
  S : GoString
deriving DecidableEq, Repr

/-- The struct `concatResponse`. -/
structure concatResponse where
  V : GoString
  Err : GoString
deriving DecidableEq, Repr

/-- The struct `countRequest`. -/
structure countRequest where
  S : GoString
deriving DecidableEq, Repr

/-- The struct `countResponse`. -/
structure countResponse where
  V : Int
deriving DecidableEq, Repr

/-- The struct `fetchByNameRequest`; its field is the JSON member `search`. -/
structure fetchByNameRequest where
  Name : GoString
deriving DecidableEq, Repr

/-- The struct `POrganization`; `Score`, a `float32`, is kept as its 32 bits. -/
structure POrganization where
  Ein : Int
  Strein : GoString
  Name : GoString
  SubName : GoString
  City : GoString
  State : GoString
  NteeCode : GoString
  RawNteeCode : GoString
  Subseccd : Int
  HasSubseccd : Bool
  HaveFilings : Bool
  HaveExtracts : Bool
  HavePdfs : Bool
  Score : Nat
deriving DecidableEq, Repr

/-- The struct `PResponse`. -/
structure PResponse where
  Organizations : List POrganization
  TotalResults : Int
  Error : GoString
deriving DecidableEq, Repr

/-- The zero value of `PResponse`, what `var pr PResponse` declares. -/
def PResponse.zero : PResponse := ⟨[], 0, []⟩

/-- A value of type `interface{}`: the dynamic type with the value, or `nil`. -/
inductive Any where
  | nil : Any
  | ofUppercaseRequest : uppercaseRequest → Any
  | ofConcatRequest : concatRequest → Any
  | ofCountRequest : countRequest → Any
  | ofFetchByNameRequest : fetchByNameRequest → Any
  | ofUppercaseResponse : uppercaseResponse → Any
  | ofConcatResponse : concatResponse → Any
  | ofCountResponse : countResponse → Any
  | ofPResponse : PResponse → Any
deriving DecidableEq, Repr

/-- What running a function gives: its results, or a run-time panic (here, of
a type assertion `x.(T)` on a value that is no `T`). -/
inductive Exec (α : Type) where
  | ret : α → Exec α
  | panic : Exec α
deriving DecidableEq, Repr

/-- The type `endpoint.Endpoint`: a request to a response and an error. -/
abbrev Endpoint := Any → Exec (Any × Option GoError)

/-- The type `DecodeRequestFunc`, applied to the body of the HTTP request: the
request and an error. -/
abbrev DecodeRequestFunc := GoString → Any × Option GoError

/-! ## Services -/

/-- The interface `StringService`. -/
structure StringService where
  Uppercase : GoString → GoString × Option GoError
  Count : GoString → Int
  Concat : GoString → GoString × Option GoError

/-- The interface `PropublicaService`. -/
structure PropublicaService where
  FetchByName : GoString → PResponse × Option GoError

/-- The type `stringService` as a `StringService`. -/
def stringService (upperCase : Nat → Nat) : StringService :=
  ⟨Uppercase upperCase, Count, Concat⟩

/-- What lies outside the program: the Unicode case table behind
`unicode.To(unicode.UpperCase, r)`; `http.Get`, which answers a URL with a
response body or fails; and the `encoding/json` decoding of such a body into a
`PResponse`, which gives the struct as it leaves it and an error. -/
structure World where
  upperCase : Nat → Nat
  Get : GoString → Except GoError GoString
  DecodePResponse : GoString → PResponse → PResponse × Option GoError

/-- The address that `FetchByName` appends the query to. -/
def searchURL : GoString :=
  lit "https://projects.propublica.org/nonprofits/api/v2/search.json?q="

/-- The method `pService.FetchByName`.  The error of `Decode` is assigned to
`err` and the function returns `nil` all the same. -/
def FetchByName (w : World) (s : GoString) : PResponse × Option GoError :=
  let pr := PResponse.zero
  match w.Get (searchURL ++ s) with
  | .error err => (pr, some err)
  | .ok body =>
    let decoded := w.DecodePResponse body pr
    let pr := decoded.1
    let _err := decoded.2
    (pr, none)

/-- The type `pService` as a `PropublicaService`. -/
def pService (w : World) : PropublicaService := ⟨FetchByName w⟩

/-! ## Endpoints -/

/-- The function `makeFetchByNameEndpoint`. -/
def makeFetchByNameEndpoint (psvc : PropublicaService) : Endpoint := fun request =>
  match request with
  | .ofFetchByNameRequest req =>
    match psvc.FetchByName req.Name with
    | (presp, some err) => .ret (.ofPResponse presp, some err)
    | (presp, none) => .ret (.ofPResponse presp, none)
  | _ => .panic

/-- The function `makeUppercaseEndpoint`. -/
def makeUppercaseEndpoint (svc : StringService) : Endpoint := fun request =>
  match request with
  | .ofUppercaseRequest req =>
    match svc.Uppercase req.S with
    | (v, some err) => .ret (.ofUppercaseResponse ⟨v, err.msg⟩, none)
    | (v, none) => .ret (.ofUppercaseResponse ⟨v, lit ""⟩, none)
  | _ => .panic

/-- The function `makeConcatEndpoint`. -/
def makeConcatEndpoint (svc : StringService) : Endpoint := fun request =>
  match request with
  | .ofConcatRequest req =>
    match svc.Concat req.S with
    | (v, some err) => .ret (.ofConcatResponse ⟨v, err.msg⟩, none)
    | (v, none) => .ret (.ofConcatResponse ⟨v, lit ""⟩, none)
  | _ => .panic

/-- The function `makeCountEndpoint`. -/
def makeCountEndpoint (svc : StringService) : Endpoint := fun request =>
  match request with
  | .ofCountRequest req => .ret (.ofCountResponse ⟨svc.Count req.S⟩, none)
  | _ => .panic

/-! ## Request decoders -/

/-- The function `decodeUppercaseRequest`. -/
def decodeUppercaseRequest : DecodeRequestFunc := fun body =>
  match json.Decode (lit "s") (lit "") body with
  | (_, some err) => (.nil, some err)
  | (s, none) => (.ofUppercaseRequest ⟨s⟩, none)

/-- The function `decodeConcatRequest`. -/
def decodeConcatRequest : DecodeRequestFunc := fun body =>
  match json.Decode (lit "s") (lit "") body with
  | (_, some err) => (.nil, some err)
  | (s, none) => (.ofConcatRequest ⟨s⟩, none)

/-- The function `decodeCountRequest`. -/
def decodeCountRequest : DecodeRequestFunc := fun body =>
  match json.Decode (lit "s") (lit "") body with
  | (_, some err) => (.nil, some err)
  | (s, none) => (.ofCountRequest ⟨s⟩, none)

/-- The function `decodeFetchByNameRequest`. -/
def decodeFetchByNameRequest : DecodeRequestFunc := fun body =>
  match json.Decode (lit "search") (lit "") body with
  | (_, some err) => (.nil, some err)
  | (s, none) => (.ofFetchByNameRequest ⟨s⟩, none)

/-! ## The request dispatcher -/

/-- How a request ends. -/
inductive Reply where
  | success : Any → Reply
  | clientError : GoError → Reply
  | endpointError : Any → GoError → Reply
  | crash : Reply
deriving DecidableEq, Repr

/-- What handling a request did: the reply, and the requests that the endpoint
was invoked on. -/
structure Handled where
  reply : Reply
  invoked : List Any
deriving DecidableEq, Repr

/-- A handler as `main` registers it: the path, the endpoint and the decoder
given to `httptransport.NewServer`. -/
structure Route where
  path : GoString
  e : Endpoint
  dec : DecodeRequestFunc

/-- Modelled from the spec: the request handler that `httptransport.NewServer`
builds, whose code (the transport library) is not among the sources.  The body
is decoded and, on failure, the handler responds with a client error status and
stops; else the endpoint is invoked and its response is encoded and written
with a success status.  The spec names no status for an error that the endpoint
itself returns; the model hands it on as it is. -/
def serve (r : Route) (body : GoString) : Handled :=
  match r.dec body with
  | (_, some err) => ⟨.clientError err, []⟩
  | (request, none) =>
    match r.e request with
    | .panic => ⟨.crash, [request]⟩
    | .ret (response, some err) => ⟨.endpointError response err, [request]⟩
    | .ret (response, none) => ⟨.success response, [request]⟩

/-- The handler `fetchByNameHandler` of `main`, registered at `/fetch`. -/
def fetchByNameHandler (w : World) : Route :=
  ⟨lit "/fetch", makeFetchByNameEndpoint (pService w), decodeFetchByNameRequest⟩

/-- The handler `uppercaseHandler` of `main`, registered at `/uppercase`. -/
def uppercaseHandler (w : World) : Route :=
  ⟨lit "/uppercase", makeUppercaseEndpoint (stringService w.upperCase),
    decodeUppercaseRequest⟩

/-- The handler `concatHandler` of `main`, registered at `/concat`. -/
def concatHandler (w : World) : Route :=
  ⟨lit "/concat", makeConcatEndpoint (stringService w.upperCase), decodeConcatRequest⟩

/-- The handler `countHandler` of `main`, registered at `/count`. -/
def countHandler (w : World) : Route :=
  ⟨lit "/count", makeCountEndpoint (stringService w.upperCase), decodeCountRequest⟩

/-- The handlers that `main` of `propublica.go` registers, in the order of its
`http.Handle` calls. -/
def routes (w : World) : List Route :=
  [concatHandler w, uppercaseHandler w, countHandler w, fetchByNameHandler w]

/-- The handlers that `main` of `main.go` registers. -/
def routesStringsvc (w : World) : List Route :=
  [concatHandler w, uppercaseHandler w, countHandler w]

/-- The request types that the endpoints assert. -/
inductive RequestType where
  | uppercaseRequest : RequestType
  | concatRequest : RequestType
  | countRequest : RequestType
  | fetchByNameRequest : RequestType
deriving DecidableEq, Repr

/-- The dynamic type of the value is the given request type: whether the type
assertion `x.(T)` succeeds. -/
def Any.isA : Any → RequestType → Bool
  | .ofUppercaseRequest _, .uppercaseRequest => true
  | .ofConcatRequest _, .concatRequest => true
  | .ofCountRequest _, .countRequest => true
  | .ofFetchByNameRequest _, .fetchByNameRequest => true
  | _, _ => false

/-! ## Sample worlds -/

/-- A world in which the search API cannot be reached: every `http.Get`
fails. -/
def unreachableWorld : World :=
  ⟨fun r => r, fun _ => .error ⟨lit "dial tcp: connection refused"⟩, fun _ pr => (pr, none)⟩

/-- An answer of the search API that is a complete JSON object whose member
`err` is a number, where `PResponse` has a string. -/
def mistypedBody : GoString := lit "\x7b\"total_results\":3,\"err\":5\x7d"

/-- A world in which the search API answers every query with `mistypedBody`, so
that this body is the only one `Decode` is given: `Decode` reads the whole
object, stores 3 in `TotalResults`, meets the number 5 where the string field
`Error` needs a string, goes on, and returns the `UnmarshalTypeError` at the
end. -/
def mistypedWorld : World :=
  ⟨fun r => r, fun _ => .ok mistypedBody,
    fun _ pr => ({ pr with TotalResults := 3 }, some json.errType)⟩

/-- A request body that is one JSON object. -/
def objectBody : GoString := lit "\x7b\"s\":\"a\",\"search\":\"a\"\x7d"

/-- A request body that starts with the same JSON object and goes on with a
bracket that closes nothing. -/
def trailingGarbageBody : GoString := lit "\x7b\"s\":\"a\",\"search\":\"a\"\x7d]"
/-! ## Theorems: strings.Replace with a one-byte `old` and an empty `new` -/

theorem hasPrefix_single (b a : Nat) (t : GoString) :
    strings.HasPrefix (a :: t) [b] = decide (a = b) := by
  cases t <;> simp [strings.HasPrefix]

theorem index_single_absent (b : Nat) (s : GoString) (h : b ∉ s) :
    strings.Index s [b] = -1 := by
  induction s with
  | nil => simp [strings.Index]
  | cons a t ih =>
    have ha : a ≠ b := fun e => h (by simp [e])
    have ht : b ∉ t := fun e => h (by simp [e])
    simp [strings.Index, hasPrefix_single, ha, ih ht]

theorem index_single_first (b : Nat) (pre post : GoString) (h : b ∉ pre) :
    strings.Index (pre ++ b :: post) [b] = pre.length := by
  induction pre with
  | nil => simp [strings.Index, hasPrefix_single]
  | cons a t ih =>
    have ha : a ≠ b := fun e => h (by simp [e])
    have ht : b ∉ t := fun e => h (by simp [e])
    have e : strings.Index (a :: (t ++ b :: post)) [b] = (t.length : Int) + 1 := by
      simp only [strings.Index, hasPrefix_single]
      rw [ih ht]
      simp [ha]
    simpa using e

theorem exists_first_occurrence (b : Nat) (s : GoString) (h : b ∈ s) :
    ∃ pre post, s = pre ++ b :: post ∧ b ∉ pre := by
  induction s with
  | nil => simp at h
  | cons a t ih =>
    by_cases ha : a = b
    · exact ⟨[], t, by simp [ha], by simp⟩
    · have ht : b ∈ t := by
        rcases List.mem_cons.mp h with e | e
        · exact absurd e.symm ha
        · exact e
      obtain ⟨pre, post, e, hp⟩ := ih ht
      refine ⟨a :: pre, post, by simp [e], ?_⟩
      intro hm
      rcases List.mem_cons.mp hm with e1 | e1
      · exact ha e1.symm
      · exact hp e1

theorem count_first_occurrence (b : Nat) (pre post : GoString) (h : b ∉ pre) :
    (pre ++ b :: post).count b = post.count b + 1 := by
  simp [List.count_append, List.count_eq_zero_of_not_mem h]

theorem countLoop_single (b : Nat) (fuel : Nat) :
    ∀ s : GoString, s.length < fuel → strings.countLoop [b] fuel s = s.count b := by
  induction fuel with
  | zero => intro s h; omega
  | succ n ih =>
    intro s hlen
    by_cases hb : b ∈ s
    · obtain ⟨pre, post, e, hp⟩ := exists_first_occurrence b s hb
      subst e
      have hpost : post.length < n := by
        simp at hlen; omega
      have hd : (pre ++ b :: post).drop (pre.length + 1) = post := by
        rw [← List.drop_drop]; simp
      have hneg : ¬ ((pre.length : Int) < 0) := by omega
      simp only [strings.countLoop, index_single_first b pre post hp,
        count_first_occurrence b pre post hp, hneg, if_false, Int.toNat_ofNat,
        List.length_singleton, hd, ih post hpost]
      omega
    · simp [strings.countLoop, index_single_absent b s hb, List.count_eq_zero_of_not_mem hb]

theorem filter_ne_of_absent (b : Nat) (s : GoString) (h : b ∉ s) :
    s.filter (fun c => decide (c ≠ b)) = s := by
  apply List.filter_eq_self.mpr
  intro a ha
  have : a ≠ b := fun e => h (e ▸ ha)
  simp [this]

theorem replaceLoop_single (b : Nat) (n : Nat) :
    ∀ (i : Nat) (s : GoString), s.count b = n →
      strings.replaceLoop [b] [] n i s = s.filter (fun c => decide (c ≠ b)) := by
  induction n with
  | zero =>
    intro i s h
    have hb : b ∉ s := List.count_eq_zero.mp h
    rw [filter_ne_of_absent b s hb]
    rfl
  | succ n ih =>
    intro i s h
    have hb : b ∈ s := by
      apply List.count_pos_iff.mp; omega
    obtain ⟨pre, post, e, hp⟩ := exists_first_occurrence b s hb
    subst e
    rw [count_first_occurrence b pre post hp] at h
    have hpost : post.count b = n := by omega
    have hd : (pre ++ b :: post).drop (pre.length + 1) = post := by
      rw [← List.drop_drop]; simp
    have hne : ([b] : GoString) ≠ [] := by simp
    have hf : (pre ++ b :: post).filter (fun c => decide (c ≠ b))
        = pre ++ post.filter (fun c => decide (c ≠ b)) := by
      rw [List.filter_append, filter_ne_of_absent b pre hp]
      simp
    simp only [strings.replaceLoop, index_single_first b pre post hp, hne, if_false,
      Int.toNat_ofNat, List.length_singleton, hd, ih (i + 1) post hpost, hf,
      List.take_left, List.append_nil]

theorem replace_single_all (b : Nat) (s : GoString) :
    strings.Replace s [b] [] (-1) = s.filter (fun c => decide (c ≠ b)) := by
  have hne : ([b] : GoString) ≠ [] := by simp
  have hm : strings.Count s [b] = s.count b := by
    simp only [strings.Count, hne, if_false]
    exact countLoop_single b (s.length + 1) s (Nat.lt_succ_self _)
  have h1 : ¬ (([b] : GoString) = [] ∨ (-1 : Int) = 0) := by simp
  simp only [strings.Replace, h1, if_false, hm]
  by_cases hb : s.count b = 0
  · have : b ∉ s := List.count_eq_zero.mp hb
    rw [filter_ne_of_absent b s this]
    simp [hb]
  · have h2 : ((-1 : Int) < 0 ∨ ((s.count b : Nat) : Int) < -1) := Or.inl (by decide)
    simp only [hb, if_false, h2, if_true]
    exact replaceLoop_single b (s.count b) 0 s rfl

/-! ## Theorems: UTF-8 decoding and encoding -/

theorem first_ascii (b : Nat) (h : b < 0x80) : utf8.first b = 0xF0 := by
  rw [utf8.first, if_pos h]

theorem first_invalid (b : Nat) (h : 0x80 ≤ b ∧ b < 0xC2 ∨ 0xF4 < b) :
    utf8.first b = 0xF1 := by
  rcases h with h | h
  · rw [utf8.first, if_neg (by omega), if_pos h.2]
  · rw [utf8.first, if_neg (by omega), if_neg (by omega), if_neg (by omega),
      if_neg (by omega), if_neg (by omega), if_neg (by omega), if_neg (by omega),
      if_neg (by omega), if_neg (by omega), if_neg (by omega)]

theorem first_two (b : Nat) (h : 0xC2 ≤ b ∧ b ≤ 0xDF) : utf8.first b = 0x02 := by
  rw [utf8.first, if_neg (by omega), if_neg (by omega), if_pos h.2]

theorem first_E0 : utf8.first 0xE0 = 0x13 := by decide

theorem first_ED : utf8.first 0xED = 0x23 := by decide

theorem first_F0 : utf8.first 0xF0 = 0x34 := by decide

theorem first_F4 : utf8.first 0xF4 = 0x44 := by decide

theorem first_three (b : Nat) (h : 0xE1 ≤ b ∧ b ≤ 0xEC ∨ 0xEE ≤ b ∧ b ≤ 0xEF) :
    utf8.first b = 0x03 := by
  rcases h with h | h
  · rw [utf8.first, if_neg (by omega), if_neg (by omega), if_neg (by omega),
      if_neg (by omega), if_pos h.2]
  · rw [utf8.first, if_neg (by omega), if_neg (by omega), if_neg (by omega),
      if_neg (by omega), if_neg (by omega), if_neg (by omega), if_pos h.2]

theorem first_four (b : Nat) (h : 0xF1 ≤ b ∧ b ≤ 0xF3) : utf8.first b = 0x04 := by
  rw [utf8.first, if_neg (by omega), if_neg (by omega), if_neg (by omega),
    if_neg (by omega), if_neg (by omega), if_neg (by omega), if_neg (by omega),
    if_neg (by omega), if_pos h.2]

theorem decode_ascii (c : Nat) (t : GoString) (h : c < 0x80) :
    utf8.DecodeRuneInString (c :: t) = (c, 1) := by
  simp [utf8.DecodeRuneInString, first_ascii c h]

theorem decode_invalid_lead (c : Nat) (t : GoString) (h : utf8.first c = 0xF1) :
    utf8.DecodeRuneInString (c :: t) = (utf8.RuneError, 1) := by
  simp [utf8.DecodeRuneInString, h]

theorem decode_two (c : Nat) (t : GoString) (h : utf8.first c = 0x02) :
    utf8.DecodeRuneInString (c :: t) =
      match t with
      | [] => (utf8.RuneError, 1)
      | s1 :: _ =>
        if s1 < 0x80 ∨ 0xBF < s1 then (utf8.RuneError, 1)
        else ((c % 32) * 64 + s1 % 64, 2) := by
  rcases t with _ | ⟨s1, t1⟩ <;> simp [utf8.DecodeRuneInString, h, utf8.acceptRanges]

theorem decode_three (c : Nat) (t : GoString) (x lo hi : Nat)
    (h : utf8.first c = x) (hx : x < 0xF0) (hsz : x % 8 = 3)
    (ha : utf8.acceptRanges (x / 16) = (lo, hi)) :
    utf8.DecodeRuneInString (c :: t) =
      match t with
      | s1 :: s2 :: _ =>
        if s1 < lo ∨ hi < s1 then (utf8.RuneError, 1)
        else if s2 < 0x80 ∨ 0xBF < s2 then (utf8.RuneError, 1)
        else ((c % 16) * 4096 + (s1 % 64) * 64 + s2 % 64, 3)
      | _ => (utf8.RuneError, 1) := by
  have hx2 : ¬ x ≥ 0xF0 := by omega
  rcases t with _ | ⟨s1, _ | ⟨s2, t2⟩⟩ <;>
    simp [utf8.DecodeRuneInString, h, hx2, hsz, ha]

theorem decode_four (c : Nat) (t : GoString) (x lo hi : Nat)
    (h : utf8.first c = x) (hx : x < 0xF0) (hsz : x % 8 = 4)
    (ha : utf8.acceptRanges (x / 16) = (lo, hi)) :
    utf8.DecodeRuneInString (c :: t) =
      match t with
      | s1 :: s2 :: s3 :: _ =>
        if s1 < lo ∨ hi < s1 then (utf8.RuneError, 1)
        else if s2 < 0x80 ∨ 0xBF < s2 then (utf8.RuneError, 1)
        else if s3 < 0x80 ∨ 0xBF < s3 then (utf8.RuneError, 1)
        else ((c % 8) * 262144 + (s1 % 64) * 4096 + (s2 % 64) * 64 + s3 % 64, 4)
      | _ => (utf8.RuneError, 1) := by
  have hx2 : ¬ x ≥ 0xF0 := by omega
  rcases t with _ | ⟨s1, _ | ⟨s2, _ | ⟨s3, t3⟩⟩⟩ <;>
    simp [utf8.DecodeRuneInString, h, hx2, hsz, ha]

theorem encode_one (c : Nat) (h : c < 0x80) : utf8.EncodeRune c = [c] := by
  rw [utf8.EncodeRune, if_pos (by omega)]

theorem encode_two (c s1 : Nat) (hc : 0xC2 ≤ c ∧ c ≤ 0xDF) (h1 : 0x80 ≤ s1 ∧ s1 ≤ 0xBF) :
    utf8.EncodeRune ((c % 32) * 64 + s1 % 64) = [c, s1] := by
  rw [utf8.EncodeRune, if_neg (by omega), if_pos (by omega)]
  have e1 : 0xC0 + ((c % 32) * 64 + s1 % 64) / 64 = c := by omega
  have e2 : 0x80 + ((c % 32) * 64 + s1 % 64) % 64 = s1 := by omega
  rw [e1, e2]

theorem encode_three (c s1 s2 : Nat) (hc : 0xE0 ≤ c ∧ c ≤ 0xEF)
    (h1 : 0x80 ≤ s1 ∧ s1 ≤ 0xBF) (h2 : 0x80 ≤ s2 ∧ s2 ≤ 0xBF)
    (hE0 : c = 0xE0 → 0xA0 ≤ s1) (hED : c = 0xED → s1 ≤ 0x9F) :
    utf8.EncodeRune ((c % 16) * 4096 + (s1 % 64) * 64 + s2 % 64) = [c, s1, s2] := by
  have hlow : 0x800 ≤ (c % 16) * 4096 + (s1 % 64) * 64 + s2 % 64 := by
    by_cases h : c = 0xE0
    · have := hE0 h; omega
    · omega
  have hsur : ¬ (0xD800 ≤ (c % 16) * 4096 + (s1 % 64) * 64 + s2 % 64 ∧
      (c % 16) * 4096 + (s1 % 64) * 64 + s2 % 64 ≤ 0xDFFF) := by
    by_cases h : c = 0xED
    · have := hED h; omega
    · omega
  rw [utf8.EncodeRune, if_neg (by omega), if_neg (by omega),
    if_neg (by unfold utf8.MaxRune; omega), if_pos (by omega)]
  have e0 : 0xE0 + ((c % 16) * 4096 + (s1 % 64) * 64 + s2 % 64) / 4096 = c := by omega
  have e1 : 0x80 + (((c % 16) * 4096 + (s1 % 64) * 64 + s2 % 64) / 64) % 64 = s1 := by
    omega
  have e2 : 0x80 + ((c % 16) * 4096 + (s1 % 64) * 64 + s2 % 64) % 64 = s2 := by omega
  rw [e0, e1, e2]

theorem encode_four (c s1 s2 s3 : Nat) (hc : 0xF0 ≤ c ∧ c ≤ 0xF4)
    (h1 : 0x80 ≤ s1 ∧ s1 ≤ 0xBF) (h2 : 0x80 ≤ s2 ∧ s2 ≤ 0xBF)
    (h3 : 0x80 ≤ s3 ∧ s3 ≤ 0xBF)
    (hF0 : c = 0xF0 → 0x90 ≤ s1) (hF4 : c = 0xF4 → s1 ≤ 0x8F) :
    utf8.EncodeRune ((c % 8) * 262144 + (s1 % 64) * 4096 + (s2 % 64) * 64 + s3 % 64)
      = [c, s1, s2, s3] := by
  have hlow : 0x10000 ≤ (c % 8) * 262144 + (s1 % 64) * 4096 + (s2 % 64) * 64 + s3 % 64 := by
    by_cases h : c = 0xF0
    · have := hF0 h; omega
    · omega
  have hhigh : (c % 8) * 262144 + (s1 % 64) * 4096 + (s2 % 64) * 64 + s3 % 64
      ≤ 0x10FFFF := by
    by_cases h : c = 0xF4
    · have := hF4 h; omega
    · omega
  rw [utf8.EncodeRune, if_neg (by omega), if_neg (by omega),
    if_neg (by unfold utf8.MaxRune; omega), if_neg (by omega)]
  have e0 : 0xF0 + ((c % 8) * 262144 + (s1 % 64) * 4096 + (s2 % 64) * 64 + s3 % 64)
      / 262144 = c := by omega
  have e1 : 0x80 + (((c % 8) * 262144 + (s1 % 64) * 4096 + (s2 % 64) * 64 + s3 % 64)
      / 4096) % 64 = s1 := by omega
  have e2 : 0x80 + (((c % 8) * 262144 + (s1 % 64) * 4096 + (s2 % 64) * 64 + s3 % 64)
      / 64) % 64 = s2 := by omega
  have e3 : 0x80 + ((c % 8) * 262144 + (s1 % 64) * 4096 + (s2 % 64) * 64 + s3 % 64)
      % 64 = s3 := by omega
  rw [e0, e1, e2, e3]

theorem decode_three_spec (c : Nat) (t : GoString) (x lo hi : Nat)
    (h : utf8.first c = x) (hx : x < 0xF0) (hsz : x % 8 = 3)
    (ha : utf8.acceptRanges (x / 16) = (lo, hi))
    (hc : 0xE0 ≤ c ∧ c ≤ 0xEF) (hlo : 0x80 ≤ lo) (hhi : hi ≤ 0xBF)
    (hE0 : c = 0xE0 → 0xA0 ≤ lo) (hED : c = 0xED → hi ≤ 0x9F) :
    utf8.DecodeRuneInString (c :: t) = (utf8.RuneError, 1) ∨
    (1 ≤ (utf8.DecodeRuneInString (c :: t)).2 ∧
      (utf8.DecodeRuneInString (c :: t)).2 ≤ (c :: t).length ∧
      utf8.EncodeRune (utf8.DecodeRuneInString (c :: t)).1
        = (c :: t).take (utf8.DecodeRuneInString (c :: t)).2) := by
  rw [decode_three c t x lo hi h hx hsz ha]
  rcases t with _ | ⟨s1, _ | ⟨s2, t2⟩⟩
  · exact Or.inl rfl
  · exact Or.inl rfl
  · dsimp only
    by_cases g1 : s1 < lo ∨ hi < s1
    · rw [if_pos g1]; exact Or.inl rfl
    · rw [if_neg g1]
      by_cases g2 : s2 < 0x80 ∨ 0xBF < s2
      · rw [if_pos g2]; exact Or.inl rfl
      · rw [if_neg g2]
        refine Or.inr ⟨by simp, by simp, ?_⟩
        have e := encode_three c s1 s2 hc (by omega) (by omega)
          (fun e => by have := hE0 e; omega) (fun e => by have := hED e; omega)
        simpa using e

theorem decode_four_spec (c : Nat) (t : GoString) (x lo hi : Nat)
    (h : utf8.first c = x) (hx : x < 0xF0) (hsz : x % 8 = 4)
    (ha : utf8.acceptRanges (x / 16) = (lo, hi))
    (hc : 0xF0 ≤ c ∧ c ≤ 0xF4) (hlo : 0x80 ≤ lo) (hhi : hi ≤ 0xBF)
    (hF0 : c = 0xF0 → 0x90 ≤ lo) (hF4 : c = 0xF4 → hi ≤ 0x8F) :
    utf8.DecodeRuneInString (c :: t) = (utf8.RuneError, 1) ∨
    (1 ≤ (utf8.DecodeRuneInString (c :: t)).2 ∧
      (utf8.DecodeRuneInString (c :: t)).2 ≤ (c :: t).length ∧
      utf8.EncodeRune (utf8.DecodeRuneInString (c :: t)).1
        = (c :: t).take (utf8.DecodeRuneInString (c :: t)).2) := by
  rw [decode_four c t x lo hi h hx hsz ha]
  rcases t with _ | ⟨s1, _ | ⟨s2, _ | ⟨s3, t3⟩⟩⟩
  · exact Or.inl rfl
  · exact Or.inl rfl
  · exact Or.inl rfl
  · dsimp only
    by_cases g1 : s1 < lo ∨ hi < s1
    · rw [if_pos g1]; exact Or.inl rfl
    · rw [if_neg g1]
      by_cases g2 : s2 < 0x80 ∨ 0xBF < s2
      · rw [if_pos g2]; exact Or.inl rfl
      · rw [if_neg g2]
        by_cases g3 : s3 < 0x80 ∨ 0xBF < s3
        · rw [if_pos g3]; exact Or.inl rfl
        · rw [if_neg g3]
          refine Or.inr ⟨by simp, by simp, ?_⟩
          have e := encode_four c s1 s2 s3 hc (by omega) (by omega) (by omega)
            (fun e => by have := hF0 e; omega) (fun e => by have := hF4 e; omega)
          simpa using e

/-- Decoding at the head of a non-empty string either reports an encoding
error of width one, or reads between one byte and the whole string and
encoding the rune gives back exactly the bytes read. -/
theorem decode_spec (c : Nat) (t : GoString) :
    utf8.DecodeRuneInString (c :: t) = (utf8.RuneError, 1) ∨
    (1 ≤ (utf8.DecodeRuneInString (c :: t)).2 ∧
      (utf8.DecodeRuneInString (c :: t)).2 ≤ (c :: t).length ∧
      utf8.EncodeRune (utf8.DecodeRuneInString (c :: t)).1
        = (c :: t).take (utf8.DecodeRuneInString (c :: t)).2) := by
  have hcases : c < 0x80 ∨ (0x80 ≤ c ∧ c < 0xC2 ∨ 0xF4 < c) ∨ (0xC2 ≤ c ∧ c ≤ 0xDF) ∨
      c = 0xE0 ∨ (0xE1 ≤ c ∧ c ≤ 0xEC ∨ 0xEE ≤ c ∧ c ≤ 0xEF) ∨ c = 0xED ∨ c = 0xF0 ∨
      (0xF1 ≤ c ∧ c ≤ 0xF3) ∨ c = 0xF4 := by omega
  rcases hcases with h | h | h | h | h | h | h | h | h
  · rw [decode_ascii c t h]
    exact Or.inr ⟨by simp, by simp, by simpa using encode_one c h⟩
  · exact Or.inl (decode_invalid_lead c t (first_invalid c h))
  · rw [decode_two c t (first_two c h)]
    rcases t with _ | ⟨s1, t1⟩
    · exact Or.inl rfl
    · dsimp only
      by_cases g1 : s1 < 0x80 ∨ 0xBF < s1
      · rw [if_pos g1]; exact Or.inl rfl
      · rw [if_neg g1]
        refine Or.inr ⟨by simp, by simp, ?_⟩
        simpa using encode_two c s1 h (by omega)
  · subst h
    exact decode_three_spec 0xE0 t 0x13 0xA0 0xBF first_E0 (by decide) (by decide) rfl
      (by decide) (by decide) (by decide) (by decide) (by decide)
  · exact decode_three_spec c t 0x03 0x80 0xBF (first_three c h) (by decide) (by decide)
      rfl (by omega) (by decide) (by decide) (by omega) (by omega)
  · subst h
    exact decode_three_spec 0xED t 0x23 0x80 0x9F first_ED (by decide) (by decide) rfl
      (by decide) (by decide) (by decide) (by decide) (by decide)
  · subst h
    exact decode_four_spec 0xF0 t 0x34 0x90 0xBF first_F0 (by decide) (by decide) rfl
      (by decide) (by decide) (by decide) (by decide) (by decide)
  · exact decode_four_spec c t 0x04 0x80 0xBF (first_four c h) (by decide) (by decide)
      rfl (by omega) (by decide) (by decide) (by omega) (by omega)
  · subst h
    exact decode_four_spec 0xF4 t 0x44 0x80 0x8F first_F4 (by decide) (by decide) rfl
      (by decide) (by decide) (by decide) (by decide) (by decide)

theorem decode_width (c : Nat) (t : GoString) :
    1 ≤ (utf8.DecodeRuneInString (c :: t)).2 ∧
    (utf8.DecodeRuneInString (c :: t)).2 ≤ (c :: t).length := by
  rcases decode_spec c t with h | h
  · rw [h]; simp
  · exact ⟨h.1, h.2.1⟩

theorem encode_decode (c : Nat) (t : GoString)
    (h : ¬ ((utf8.DecodeRuneInString (c :: t)).1 = utf8.RuneError ∧
      (utf8.DecodeRuneInString (c :: t)).2 = 1)) :
    utf8.EncodeRune (utf8.DecodeRuneInString (c :: t)).1
      = (c :: t).take (utf8.DecodeRuneInString (c :: t)).2 := by
  rcases decode_spec c t with g | g
  · rw [g] at h; simp at h
  · exact g.2.2

/-! ## Theorems: strings.Map and strings.ToUpper -/

theorem mapTail_eq_runes (f : Nat → Nat) (fuel : Nat) :
    ∀ s : GoString,
      strings.mapTail f fuel s = ((utf8.runesLoop fuel s).map f).flatMap utf8.EncodeRune := by
  induction fuel with
  | zero => intro s; simp [strings.mapTail, utf8.runesLoop]
  | succ n ih =>
    intro s
    cases s with
    | nil => simp [strings.mapTail, utf8.runesLoop]
    | cons c t => simp [strings.mapTail, utf8.runesLoop, ih]

theorem mapHead_eq_mapTail (f : Nat → Nat) (fuel : Nat) :
    ∀ s : GoString, s.length ≤ fuel →
      strings.mapHead f fuel s = strings.mapTail f fuel s := by
  induction fuel with
  | zero =>
    intro s hlen
    have : s = [] := List.length_eq_zero.mp (by omega)
    subst this
    simp [strings.mapHead, strings.mapTail]
  | succ n ih =>
    intro s hlen
    cases s with
    | nil => simp [strings.mapHead, strings.mapTail]
    | cons c t =>
      have hw := decode_width c t
      have hlen2 : ((c :: t).drop (utf8.DecodeRuneInString (c :: t)).2).length ≤ n := by
        simp only [List.length_drop, List.length_cons] at hlen ⊢
        omega
      simp only [strings.mapHead, strings.mapTail]
      by_cases hsame : f (utf8.DecodeRuneInString (c :: t)).1
            = (utf8.DecodeRuneInString (c :: t)).1 ∧
          ((utf8.DecodeRuneInString (c :: t)).1 ≠ utf8.RuneError ∨
            (utf8.DecodeRuneInString (c :: t)).2 ≠ 1)
      · have herr : ¬ ((utf8.DecodeRuneInString (c :: t)).1 = utf8.RuneError ∧
            (utf8.DecodeRuneInString (c :: t)).2 = 1) := by
          intro h
          rcases hsame.2 with g | g
          · exact g h.1
          · exact g h.2
        rw [if_pos hsame, hsame.1, encode_decode c t herr, ih _ hlen2]
      · rw [if_neg hsame]

theorem runesLoop_encode (fuel : Nat) :
    ∀ s : GoString, s.length ≤ fuel → utf8.validLoop fuel s = true →
      (utf8.runesLoop fuel s).flatMap utf8.EncodeRune = s := by
  induction fuel with
  | zero =>
    intro s hlen _
    have : s = [] := List.length_eq_zero.mp (by omega)
    subst this
    simp [utf8.runesLoop]
  | succ n ih =>
    intro s hlen hv
    cases s with
    | nil => simp [utf8.runesLoop]
    | cons c t =>
      have hw := decode_width c t
      simp only [utf8.validLoop] at hv
      by_cases herr : (utf8.DecodeRuneInString (c :: t)).1 = utf8.RuneError ∧
          (utf8.DecodeRuneInString (c :: t)).2 = 1
      · rw [if_pos herr] at hv
        exact absurd hv (by decide)
      · rw [if_neg herr] at hv
        have hlen2 : ((c :: t).drop (utf8.DecodeRuneInString (c :: t)).2).length ≤ n := by
          simp only [List.length_drop, List.length_cons] at hlen ⊢
          omega
        simp only [utf8.runesLoop, List.flatMap_cons]
        rw [encode_decode c t herr, ih _ hlen2 hv, List.take_append_drop]

theorem runesLoop_ascii (fuel : Nat) :
    ∀ s : GoString, s.length ≤ fuel → isASCII s → utf8.runesLoop fuel s = s := by
  induction fuel with
  | zero =>
    intro s hlen _
    have : s = [] := List.length_eq_zero.mp (by omega)
    subst this
    simp [utf8.runesLoop]
  | succ n ih =>
    intro s hlen ha
    cases s with
    | nil => simp [utf8.runesLoop]
    | cons c t =>
      have hc : c < 0x80 := ha c (by simp)
      have ht : isASCII t := fun b hb => ha b (by simp [hb])
      have hlen2 : t.length ≤ n := by simpa using hlen
      simp [utf8.runesLoop, decode_ascii c t hc, ih t hlen2 ht]

theorem toUpper_ascii_rune (upperCase : Nat → Nat) (r : Nat) (h : r ≤ 0x7F) :
    unicode.ToUpper upperCase r = asciiUpper r := by
  simp [unicode.ToUpper, asciiUpper, h]

theorem asciiUpper_le (c : Nat) : asciiUpper c ≤ c := by
  unfold asciiUpper
  split_ifs <;> omega

theorem all_ascii_iff (s : GoString) :
    s.all (fun c => decide (c < utf8.RuneSelf)) = true ↔ isASCII s := by
  simp [isASCII, utf8.RuneSelf]

theorem map_asciiUpper_of_no_lower (s : GoString)
    (h : s.any (fun c => decide (0x61 ≤ c ∧ c ≤ 0x7A)) = false) :
    s.map asciiUpper = s := by
  induction s with
  | nil => rfl
  | cons c t ih =>
    simp only [List.any_cons, Bool.or_eq_false_iff] at h
    have hc : ¬ (0x61 ≤ c ∧ c ≤ 0x7A) := by simpa using h.1
    simp only [List.map_cons, ih h.2]
    simp [asciiUpper, hc]

theorem toUpper_ascii (upperCase : Nat → Nat) (s : GoString) (h : isASCII s) :
    strings.ToUpper upperCase s = s.map asciiUpper := by
  unfold strings.ToUpper
  rw [if_pos ((all_ascii_iff s).mpr h)]
  by_cases hl : s.any (fun c => decide (0x61 ≤ c ∧ c ≤ 0x7A)) = true
  · rw [hl]
    simp only [Bool.not_true, Bool.false_eq_true, if_false]
    apply List.map_congr_left
    intro c _
    simp [asciiUpper]
  · have hl2 : s.any (fun c => decide (0x61 ≤ c ∧ c ≤ 0x7A)) = false := by
      simpa using hl
    rw [hl2]
    simp only [Bool.not_false, if_true]
    exact (map_asciiUpper_of_no_lower s hl2).symm

theorem map_encode_ascii (upperCase : Nat → Nat) (s : GoString) (h : isASCII s) :
    (s.map (unicode.ToUpper upperCase)).flatMap utf8.EncodeRune = s.map asciiUpper := by
  induction s with
  | nil => rfl
  | cons c t ih =>
    have hc : c < 0x80 := h c (by simp)
    have ht : isASCII t := fun b hb => h b (by simp [hb])
    have hu := asciiUpper_le c
    simp only [List.map_cons, List.flatMap_cons, ih ht,
      toUpper_ascii_rune upperCase c (by omega), encode_one (asciiUpper c) (by omega)]
    rfl

/-- The function `strings.ToUpper` decodes the string rune by rune, an invalid
byte counting as `RuneError`, maps each rune with `unicode.ToUpper` and encodes
the images in the same order. -/
theorem toUpper_runes (upperCase : Nat → Nat) (s : GoString) :
    strings.ToUpper upperCase s
      = ((utf8.runes s).map (unicode.ToUpper upperCase)).flatMap utf8.EncodeRune := by
  by_cases ha : isASCII s
  · rw [toUpper_ascii upperCase s ha]
    unfold utf8.runes
    rw [runesLoop_ascii s.length s (le_refl _) ha, map_encode_ascii upperCase s ha]
  · have hall : ¬ (s.all (fun c => decide (c < utf8.RuneSelf)) = true) :=
      fun h => ha ((all_ascii_iff s).mp h)
    unfold strings.ToUpper
    rw [if_neg hall]
    unfold strings.Map utf8.runes
    rw [mapHead_eq_mapTail _ s.length s (le_refl _), mapTail_eq_runes]

theorem encode_ne_single_FF (r : Nat) : utf8.EncodeRune r ≠ [0xFF] := by
  unfold utf8.EncodeRune
  split_ifs <;> simp
  omega

/-! ## Theorems: the JSON reader never runs out of its recursion bound -/

theorem except_map_error {ε α β : Type} (x : Except ε α) (f : α → β) (e : ε) :
    x.map f = .error e ↔ x = .error e := by
  cases x <;> simp [Except.map]

theorem except_map_ok {ε α β : Type} (x : Except ε α) (f : α → β) (b : β) :
    x.map f = .ok b ↔ ∃ a, x = .ok a ∧ f a = b := by
  cases x <;> simp [Except.map]

theorem errAt_ne_fuel (s : GoString) : json.errAt s ≠ json.errFuel := by
  unfold json.errAt
  split_ifs <;> decide

theorem skipSpace_length (s : GoString) : (json.skipSpace s).length ≤ s.length := by
  induction s with
  | nil => simp [json.skipSpace]
  | cons c t ih =>
    simp only [json.skipSpace]
    split_ifs
    · simp only [List.length_cons]; omega
    · exact le_refl _

theorem spanDigits_length (s : GoString) : (json.spanDigits s).2.length ≤ s.length := by
  induction s with
  | nil => simp [json.spanDigits]
  | cons c t ih =>
    simp only [json.spanDigits]
    split_ifs
    · simp only [Prod.map_snd, id, List.length_cons]; omega
    · exact le_refl _

theorem spanDigits_length_lt (c : Nat) (t : GoString) (h : json.isDigit c = true) :
    (json.spanDigits (c :: t)).2.length < (c :: t).length := by
  simp only [json.spanDigits, h, if_true, Prod.map_snd, id, List.length_cons]
  have := spanDigits_length t
  omega

theorem digits1_spec (s : GoString) :
    json.digits1 s ≠ .error json.errFuel ∧
    ∀ p r, json.digits1 s = .ok (p, r) → r.length < s.length := by
  cases s with
  | nil => simp [json.digits1]; decide
  | cons c t =>
    simp only [json.digits1]
    by_cases h : json.isDigit c = true
    · rw [if_pos h]
      refine ⟨by simp, ?_⟩
      intro p r e
      have e2 : json.spanDigits (c :: t) = (p, r) := by simpa using e
      have := spanDigits_length_lt c t h
      rw [e2] at this
      exact this
    · rw [if_neg h]
      refine ⟨?_, by simp⟩
      simp; decide

theorem parseInt_spec (s : GoString) :
    json.parseInt s ≠ .error json.errFuel ∧
    ∀ p r, json.parseInt s = .ok (p, r) → r.length < s.length := by
  cases s with
  | nil => simp [json.parseInt]; decide
  | cons c t =>
    simp only [json.parseInt]
    by_cases h0 : c = 0x30
    · rw [if_pos h0]
      refine ⟨by simp, ?_⟩
      intro p r e
      have : t = r := by simpa using (congrArg Prod.snd (Except.ok.inj e))
      subst this; simp
    · rw [if_neg h0]
      by_cases h1 : 0x31 ≤ c ∧ c ≤ 0x39
      · rw [if_pos h1]
        have hd : json.isDigit c = true := by simp [json.isDigit]; omega
        refine ⟨by simp, ?_⟩
        intro p r e
        have e2 : json.spanDigits (c :: t) = (p, r) := by simpa using e
        have := spanDigits_length_lt c t hd
        rw [e2] at this
        exact this
      · rw [if_neg h1]
        refine ⟨?_, by simp⟩
        simp; decide

theorem parseFrac_spec (s : GoString) :
    json.parseFrac s ≠ .error json.errFuel ∧
    ∀ p r, json.parseFrac s = .ok (p, r) → r.length ≤ s.length := by
  unfold json.parseFrac
  split
  · rename_i t
    have h := digits1_spec t
    refine ⟨fun e => h.1 ((except_map_error _ _ _).mp e), ?_⟩
    intro p r e
    obtain ⟨a, ha, hf⟩ := (except_map_ok _ _ _).mp e
    have := h.2 a.1 a.2 ha
    have hr : a.2 = r := by simpa using congrArg Prod.snd hf
    rw [hr] at this
    simp only [List.length_cons]; omega
  · refine ⟨by simp, ?_⟩
    intro p r e
    have : s = r := by simpa using (congrArg Prod.snd (Except.ok.inj e))
    subst this; exact le_refl _

theorem parseExp_spec (s : GoString) :
    json.parseExp s ≠ .error json.errFuel ∧
    ∀ p r, json.parseExp s = .ok (p, r) → r.length ≤ s.length := by
  have hid : ∀ s : GoString, (Except.ok (([] : GoString), s) : Except GoError _)
        ≠ .error json.errFuel ∧
      ∀ p r, (Except.ok (([] : GoString), s) : Except GoError _) = .ok (p, r) →
        r.length ≤ s.length := by
    intro s
    refine ⟨by simp, ?_⟩
    intro p r e
    have : s = r := by simpa using (congrArg Prod.snd (Except.ok.inj e))
    subst this; exact le_refl _
  have hmap : ∀ (t : GoString) (f : GoString × GoString → GoString × GoString),
      (∀ a, (f a).2 = a.2) →
      (json.digits1 t).map f ≠ .error json.errFuel ∧
      ∀ p r, (json.digits1 t).map f = .ok (p, r) → r.length < t.length := by
    intro t f hf
    have h := digits1_spec t
    refine ⟨fun e => h.1 ((except_map_error _ _ _).mp e), ?_⟩
    intro p r e
    obtain ⟨a, ha, hfa⟩ := (except_map_ok _ _ _).mp e
    have := h.2 a.1 a.2 ha
    have hr : a.2 = r := by
      have := congrArg Prod.snd hfa
      rw [hf a] at this
      exact this
    rw [hr] at this
    exact this
  cases s with
  | nil => exact hid []
  | cons c t =>
    simp only [json.parseExp]
    by_cases he : c = 0x65 ∨ c = 0x45
    · rw [if_pos he]
      cases t with
      | nil => exact ⟨by simp; decide, by simp⟩
      | cons sg t1 =>
        dsimp only
        by_cases hs : sg = 0x2B ∨ sg = 0x2D
        · rw [if_pos hs]
          have h := hmap t1 (fun p => (c :: sg :: p.1, p.2)) (fun _ => rfl)
          refine ⟨h.1, ?_⟩
          intro p r e
          have := h.2 p r e
          simp only [List.length_cons]; omega
        · rw [if_neg hs]
          have h := hmap (sg :: t1) (fun p => (c :: p.1, p.2)) (fun _ => rfl)
          refine ⟨h.1, ?_⟩
          intro p r e
          have := h.2 p r e
          simp only [List.length_cons] at this ⊢; omega
    · rw [if_neg he]
      exact hid (c :: t)

theorem parseUnsigned_spec (s : GoString) :
    json.parseUnsigned s ≠ .error json.errFuel ∧
    ∀ p r, json.parseUnsigned s = .ok (p, r) → r.length < s.length := by
  have hi := parseInt_spec s
  unfold json.parseUnsigned
  rcases h1 : json.parseInt s with e | ⟨i, r⟩
  · rw [h1] at hi
    exact ⟨by simpa using hi.1, by simp⟩
  · have hf := parseFrac_spec r
    have hir := hi.2 i r h1
    dsimp only
    rcases h2 : json.parseFrac r with e | ⟨f, r1⟩
    · rw [h2] at hf
      exact ⟨by simpa using hf.1, by simp⟩
    · have hx := parseExp_spec r1
      have hfr := hf.2 f r1 h2
      dsimp only
      rcases h3 : json.parseExp r1 with e | ⟨x, r2⟩
      · rw [h3] at hx
        exact ⟨by simpa using hx.1, by simp⟩
      · have hxr := hx.2 x r2 h3
        refine ⟨by simp, ?_⟩
        intro p r' e
        have : r2 = r' := by simpa using (congrArg Prod.snd (Except.ok.inj e))
        subst this
        omega

theorem parseNumber_spec (s : GoString) :
    json.parseNumber s ≠ .error json.errFuel ∧
    ∀ p r, json.parseNumber s = .ok (p, r) → r.length < s.length := by
  unfold json.parseNumber
  split
  · rename_i t
    have h := parseUnsigned_spec t
    refine ⟨fun e => h.1 ((except_map_error _ _ _).mp e), ?_⟩
    intro p r e
    obtain ⟨a, ha, hf⟩ := (except_map_ok _ _ _).mp e
    have := h.2 a.1 a.2 ha
    have hr : a.2 = r := by simpa using congrArg Prod.snd hf
    rw [hr] at this
    simp only [List.length_cons]; omega
  · exact parseUnsigned_spec s

theorem expectBytes_spec (w : GoString) :
    ∀ s : GoString, json.expectBytes w s ≠ .error json.errFuel ∧
      ∀ r, json.expectBytes w s = .ok r → r.length ≤ s.length := by
  induction w with
  | nil =>
    intro s
    refine ⟨by simp [json.expectBytes], ?_⟩
    intro r e
    have : s = r := by simpa [json.expectBytes] using e
    subst this; exact le_refl _
  | cons a ws ih =>
    intro s
    cases s with
    | nil => exact ⟨by simp [json.expectBytes]; decide, by simp [json.expectBytes]⟩
    | cons c t =>
      simp only [json.expectBytes]
      by_cases h : c = a
      · rw [if_pos h]
        refine ⟨(ih t).1, ?_⟩
        intro r e
        have := (ih t).2 r e
        simp only [List.length_cons]; omega
      · rw [if_neg h]
        exact ⟨by simp; decide, by simp⟩

theorem parseString_spec (fuel : Nat) :
    ∀ s : GoString,
      (s.length < fuel → json.parseString fuel s ≠ .error json.errFuel) ∧
      ∀ p r, json.parseString fuel s = .ok (p, r) → r.length < s.length := by
  induction fuel with
  | zero =>
    intro s
    exact ⟨fun h => absurd h (Nat.not_lt_zero _), by simp [json.parseString]⟩
  | succ n ih =>
    intro s
    cases s with
    | nil => exact ⟨fun _ => by simp [json.parseString]; decide, by simp [json.parseString]⟩
    | cons c t =>
      have hrec : ∀ (s1 : GoString) (f : GoString × GoString → GoString × GoString),
          (∀ a, (f a).2 = a.2) → s1.length ≤ t.length →
          ((c :: t).length < n + 1 → (json.parseString n s1).map f ≠ .error json.errFuel) ∧
          ∀ p r, (json.parseString n s1).map f = .ok (p, r) → r.length < (c :: t).length := by
        intro s1 f hf hlen
        constructor
        · intro hl e
          have hl2 : s1.length < n := by simp only [List.length_cons] at hl; omega
          exact (ih s1).1 hl2 ((except_map_error _ _ _).mp e)
        · intro p r e
          obtain ⟨a, ha, hfa⟩ := (except_map_ok _ _ _).mp e
          have h1 := (ih s1).2 a.1 a.2 ha
          have hr : a.2 = r := by
            have := congrArg Prod.snd hfa
            rw [hf a] at this
            exact this
          rw [hr] at h1
          simp only [List.length_cons]; omega
      have herr : ∀ e : GoError, e ≠ json.errFuel →
          ((c :: t).length < n + 1 →
            (Except.error e : Except GoError (GoString × GoString)) ≠ .error json.errFuel) ∧
          ∀ p r, (Except.error e : Except GoError (GoString × GoString)) = .ok (p, r) →
            r.length < (c :: t).length := by
        intro e he
        exact ⟨fun _ h => he (by simpa using h), by simp⟩
      have hok : ((c :: t).length < n + 1 →
            (Except.ok (([] : GoString), t) : Except GoError (GoString × GoString))
              ≠ .error json.errFuel) ∧
          ∀ p r, (Except.ok (([] : GoString), t) : Except GoError (GoString × GoString))
              = .ok (p, r) → r.length < (c :: t).length := by
        refine ⟨fun _ => by simp, ?_⟩
        intro p r e
        have : t = r := by simpa using (congrArg Prod.snd (Except.ok.inj e))
        subst this; simp
      have hw := decode_width c t
      simp only [json.parseString]
      repeat' split
      all_goals first
        | exact herr _ (by decide)
        | exact herr _ (errAt_ne_fuel _)
        | exact hok
        | (refine hrec _ _ (fun _ => rfl) ?_
           simp only [List.length_drop, List.length_cons] at hw ⊢
           omega)

theorem map_keeps_spec {α β : Type} (x : Except GoError (α × GoString))
    (f : α × GoString → β × GoString) (hf : ∀ a, (f a).2 = a.2) (k : Nat) (P : Prop)
    (hx1 : P → x ≠ .error json.errFuel) (hx2 : ∀ v r, x = .ok (v, r) → r.length < k) :
    (P → x.map f ≠ .error json.errFuel) ∧
    ∀ v r, x.map f = .ok (v, r) → r.length < k := by
  constructor
  · intro hp e
    exact hx1 hp ((except_map_error _ _ _).mp e)
  · intro v r e
    obtain ⟨a, ha, hfa⟩ := (except_map_ok _ _ _).mp e
    have h1 := hx2 a.1 a.2 ha
    have hr : a.2 = r := by
      have := congrArg Prod.snd hfa
      rw [hf a] at this
      exact this
    rw [hr] at h1
    exact h1

theorem error_keeps_spec {α : Type} (e : GoError) (he : e ≠ json.errFuel) (k : Nat)
    (P : Prop) :
    (P → (Except.error e : Except GoError (α × GoString)) ≠ .error json.errFuel) ∧
    ∀ v r, (Except.error e : Except GoError (α × GoString)) = .ok (v, r) → r.length < k :=
  ⟨fun _ h => he (by simpa using h), by simp⟩

theorem ok_keeps_spec {α : Type} (a : α) (r0 : GoString) (k : Nat) (P : Prop)
    (h : r0.length < k) :
    (P → (Except.ok (a, r0) : Except GoError (α × GoString)) ≠ .error json.errFuel) ∧
    ∀ v r, (Except.ok (a, r0) : Except GoError (α × GoString)) = .ok (v, r) →
      r.length < k := by
  refine ⟨fun _ => by simp, ?_⟩
  intro v r e
  have : r0 = r := by simpa using (congrArg Prod.snd (Except.ok.inj e))
  subst this; exact h

theorem map_rest_keeps_spec {β : Type} (x : Except GoError GoString)
    (f : GoString → β × GoString) (hf : ∀ a, (f a).2 = a) (k : Nat) (P : Prop)
    (hx1 : x ≠ .error json.errFuel) (hx2 : ∀ r, x = .ok r → r.length < k) :
    (P → x.map f ≠ .error json.errFuel) ∧
    ∀ v r, x.map f = .ok (v, r) → r.length < k := by
  constructor
  · intro _ e
    exact hx1 ((except_map_error _ _ _).mp e)
  · intro v r e
    obtain ⟨a, ha, hfa⟩ := (except_map_ok _ _ _).mp e
    have h1 := hx2 a ha
    have hr : a = r := by
      have := congrArg Prod.snd hfa
      rw [hf a] at this
      exact this
    rw [hr] at h1
    exact h1

theorem literal_keeps_spec (w : GoString) (c : Nat) (t : GoString) (v0 : json.JValue)
    (P : Prop) :
    (P → (json.expectBytes w t).map (fun r => (v0, r)) ≠ .error json.errFuel) ∧
    ∀ v r, (json.expectBytes w t).map (fun r => (v0, r)) = .ok (v, r) →
      r.length < (c :: t).length := by
  refine map_rest_keeps_spec _ _ (fun _ => rfl) _ _ (expectBytes_spec w t).1 ?_
  intro r e
  have := (expectBytes_spec w t).2 r e
  simp only [List.length_cons]; omega

/-- With the bound that `readValue` gives them, the three parsers never stop
for lack of it, and a value read leaves strictly less input. -/
theorem parse_spec (fuel : Nat) :
    (∀ depth s,
      (2 * s.length + 1 ≤ fuel → json.parseValue fuel depth s ≠ .error json.errFuel) ∧
      ∀ v r, json.parseValue fuel depth s = .ok (v, r) → r.length < s.length) ∧
    (∀ depth s,
      (2 * s.length + 2 ≤ fuel → json.parseElems fuel depth s ≠ .error json.errFuel) ∧
      ∀ v r, json.parseElems fuel depth s = .ok (v, r) → r.length < s.length) ∧
    (∀ depth s,
      (2 * s.length + 2 ≤ fuel → json.parseMembers fuel depth s ≠ .error json.errFuel) ∧
      ∀ v r, json.parseMembers fuel depth s = .ok (v, r) → r.length < s.length) := by
  induction fuel with
  | zero =>
    refine ⟨fun d s => ⟨fun h => by omega, by simp [json.parseValue]⟩,
      fun d s => ⟨fun h => by omega, by simp [json.parseElems]⟩,
      fun d s => ⟨fun h => by omega, by simp [json.parseMembers]⟩⟩
  | succ n ih =>
    obtain ⟨ihV, ihE, ihM⟩ := ih
    refine ⟨?_, ?_, ?_⟩
    · intro depth s
      cases s with
      | nil =>
        rw [json.parseValue]
        exact error_keeps_spec _ (by decide) _ _
      | cons c t =>
        have hsk := skipSpace_length t
        rw [json.parseValue]
        split_ifs
        · exact ⟨fun _ h => absurd (Except.error.inj h) (by decide), by simp⟩
        · split
          · rename_i r heq
            refine ok_keeps_spec _ _ _ _ ?_
            rw [heq] at hsk
            simp only [List.length_cons] at hsk ⊢; omega
          · refine map_keeps_spec _ _ ?_ _ _ ?_ ?_
            · intro _; rfl
            · intro hb
              apply (ihM (depth + 1) (json.skipSpace t)).1
              simp only [List.length_cons] at hb; omega
            · intro v r e
              have := (ihM (depth + 1) (json.skipSpace t)).2 v r e
              simp only [List.length_cons]; omega
        · exact ⟨fun _ h => absurd (Except.error.inj h) (by decide), by simp⟩
        · split
          · rename_i r heq
            refine ok_keeps_spec _ _ _ _ ?_
            rw [heq] at hsk
            simp only [List.length_cons] at hsk ⊢; omega
          · refine map_keeps_spec _ _ ?_ _ _ ?_ ?_
            · intro _; rfl
            · intro hb
              apply (ihE (depth + 1) (json.skipSpace t)).1
              simp only [List.length_cons] at hb; omega
            · intro v r e
              have := (ihE (depth + 1) (json.skipSpace t)).2 v r e
              simp only [List.length_cons]; omega
        · refine map_keeps_spec _ _ ?_ _ _ ?_ ?_
          · intro _; rfl
          · intro _
            exact (parseString_spec (t.length + 1) t).1 (Nat.lt_succ_self _)
          · intro v r e
            have := (parseString_spec (t.length + 1) t).2 v r e
            simp only [List.length_cons]; omega
        · refine map_keeps_spec _ _ ?_ _ _ ?_ ?_
          · intro _; rfl
          · intro _
            exact (parseNumber_spec (c :: t)).1
          · exact (parseNumber_spec (c :: t)).2
        · exact literal_keeps_spec _ c t _ _
        · exact literal_keeps_spec _ c t _ _
        · exact literal_keeps_spec _ c t _ _
        · exact ⟨fun _ h => absurd (Except.error.inj h) (by decide), by simp⟩
    · intro depth s
      rw [json.parseElems]
      rcases hv : json.parseValue n depth s with e | ⟨v, r⟩
      · dsimp only
        constructor
        · intro hb h
          have : e = json.errFuel := by simpa using h
          subst this
          exact (ihV depth s).1 (by omega) hv
        · simp
      · dsimp only
        have hr := (ihV depth s).2 v r hv
        have hsk := skipSpace_length r
        split
        · exact ⟨fun _ h => absurd (Except.error.inj h) (by decide), by simp⟩
        · rename_i c r1 heq
          rw [heq] at hsk
          simp only [List.length_cons] at hsk
          have hsk1 := skipSpace_length r1
          split_ifs
          · refine ok_keeps_spec _ _ _ _ ?_
            omega
          · refine map_keeps_spec _ _ ?_ _ _ ?_ ?_
            · intro _; rfl
            · intro hb
              apply (ihE depth (json.skipSpace r1)).1
              omega
            · intro v r e
              have := (ihE depth (json.skipSpace r1)).2 v r e
              omega
          · exact ⟨fun _ h => absurd (Except.error.inj h) (by decide), by simp⟩
    · intro depth s
      cases s with
      | nil =>
        simp only [json.parseMembers]
        exact ⟨fun _ h => absurd (Except.error.inj h) (by decide), by simp⟩
      | cons q t =>
        rw [json.parseMembers]
        split_ifs
        · exact ⟨fun _ h => absurd (Except.error.inj h) (by decide), by simp⟩
        · rcases hk : json.parseString (t.length + 1) t with e | ⟨k, r⟩
          · dsimp only
            constructor
            · intro _ h
              have : e = json.errFuel := by simpa using h
              subst this
              exact (parseString_spec (t.length + 1) t).1 (Nat.lt_succ_self _) hk
            · simp
          · dsimp only
            have hr := (parseString_spec (t.length + 1) t).2 k r hk
            have hsk := skipSpace_length r
            split
            · exact ⟨fun _ h => absurd (Except.error.inj h) (by decide), by simp⟩
            · rename_i col r1 heq
              rw [heq] at hsk
              simp only [List.length_cons] at hsk
              have hsk1 := skipSpace_length r1
              split_ifs
              · exact ⟨fun _ h => absurd (Except.error.inj h) (by decide), by simp⟩
              · rcases hv : json.parseValue n depth (json.skipSpace r1) with e | ⟨v, r2⟩
                · dsimp only
                  constructor
                  · intro hb h
                    have : e = json.errFuel := by simpa using h
                    subst this
                    simp only [List.length_cons] at hb
                    exact (ihV depth (json.skipSpace r1)).1 (by omega) hv
                  · simp
                · dsimp only
                  have hr2 := (ihV depth (json.skipSpace r1)).2 v r2 hv
                  have hsk2 := skipSpace_length r2
                  split
                  · exact ⟨fun _ h => absurd (Except.error.inj h) (by decide), by simp⟩
                  · rename_i c r3 heq2
                    rw [heq2] at hsk2
                    simp only [List.length_cons] at hsk2
                    have hsk3 := skipSpace_length r3
                    split_ifs
                    · refine ok_keeps_spec _ _ _ _ ?_
                      simp only [List.length_cons]; omega
                    · refine map_keeps_spec _ _ ?_ _ _ ?_ ?_
                      · intro _; rfl
                      · intro hb
                        apply (ihM depth (json.skipSpace r3)).1
                        simp only [List.length_cons] at hb; omega
                      · intro v r e
                        have := (ihM depth (json.skipSpace r3)).2 v r e
                        simp only [List.length_cons]; omega
                    · exact ⟨fun _ h => absurd (Except.error.inj h) (by decide), by simp⟩

theorem readValue_never_out_of_fuel (body : GoString) :
    json.readValue body ≠ .error json.errFuel := by
  unfold json.readValue
  split
  · simp; decide
  · exact ((parse_spec _).1 0 _).1 (by omega)

/-! ## Theorems: the string service -/

theorem concat_nonempty (s : GoString) (h : s ≠ []) :
    Concat s = (s.filter (fun c => decide (c ≠ 0x20)), none) := by
  have e : strings.Replace s (lit " ") (lit "") (-1)
      = s.filter (fun c => decide (c ≠ 0x20)) := replace_single_all 0x20 s
  simp only [Concat, h, if_false, e]

/-- C1: `Uppercase` and `Concat` return `ErrEmpty`, whose message is "empty
string", with the empty string as value exactly when the input is empty, and a
nil error on every non-empty input. -/
theorem C1_empty_input_error (upperCase : Nat → Nat) (s : GoString) :
    ErrEmpty.msg = lit "empty string" ∧
    (Uppercase upperCase s = (lit "", some ErrEmpty) ↔ s = lit "") ∧
    (Concat s = (lit "", some ErrEmpty) ↔ s = lit "") ∧
    ((Uppercase upperCase s).2 = some ErrEmpty ↔ s = lit "") ∧
    ((Concat s).2 = some ErrEmpty ↔ s = lit "") ∧
    (s ≠ lit "" → (Uppercase upperCase s).2 = none ∧ (Concat s).2 = none) := by
  have hl : lit "" = ([] : GoString) := rfl
  rw [hl]
  refine ⟨rfl, ?_, ?_, ?_, ?_, ?_⟩
  · by_cases h : s = [] <;> simp [Uppercase, h]
  · by_cases h : s = [] <;> simp [Concat, h]
  · by_cases h : s = [] <;> simp [Uppercase, h]
  · by_cases h : s = [] <;> simp [Concat, h]
  · intro h
    simp [Uppercase, Concat, h]

/-- C3: on a non-empty string `Concat` returns, with a nil error, the bytes of
`s` other than the space, in their order; the result holds no space; and
`Concat("aaa, bb")` is `"aaa,bb"`. -/
theorem C3_concat_removes_spaces (s : GoString) (h : s ≠ lit "") :
    Concat s = (s.filter (fun c => decide (c ≠ 0x20)), none) ∧
    0x20 ∉ (Concat s).1 ∧
    Concat (lit "aaa, bb") = (lit "aaa,bb", none) := by
  have e := concat_nonempty s h
  refine ⟨e, ?_, by decide⟩
  rw [e]
  simp [List.mem_filter]

/-- C3, at an input: a string with spaces at both ends and in a row. -/
theorem C3_concat_removes_spaces_witness :
    Concat (lit " a  b ") = (lit "ab", none) ∧ 0x20 ∉ (Concat (lit " a  b ")).1 := by
  have h := C3_concat_removes_spaces (lit " a  b ") (by decide)
  exact ⟨by decide, h.2.1⟩

/-- C4: `Count` returns the length of its argument, whatever it is: there is
no error result; `Count("aaa, bb")` is 7 and `Count("")` is 0. -/
theorem C4_count_is_length (s : GoString) :
    Count s = (s.length : Int) ∧ 0 ≤ Count s ∧
    Count (lit "aaa, bb") = 7 ∧ Count (lit "") = 0 := by
  refine ⟨rfl, ?_, by decide, by decide⟩
  simp [Count]

/-- C5: for a non-empty ASCII string, the length that `Count` gives for the
value of `Concat(s)` is at most the length it gives for `s`. -/
theorem C5_concat_not_longer (s : GoString) (hne : s ≠ lit "") (_hascii : isASCII s) :
    Count (Concat s).1 ≤ Count s := by
  rw [concat_nonempty s hne]
  simp only [Count]
  exact_mod_cast List.length_filter_le _ s

/-- C5, at an input: "aaa, bb" has 7 bytes and its concatenation 6. -/
theorem C5_concat_not_longer_witness :
    Count (Concat (lit "aaa, bb")).1 ≤ Count (lit "aaa, bb") ∧
    Count (Concat (lit "aaa, bb")).1 = 6 :=
  ⟨C5_concat_not_longer (lit "aaa, bb") (by decide) (by decide), by decide⟩

/-- C2, as stated, fails: "a\xff" is not empty and its second byte is no
lower-case letter, so the claim has `Uppercase` return "A\xff"; the code
returns "A" followed by the encoding of a rune, which is never the byte 0xFF,
and with a case table that leaves U+FFFD alone it returns "A\xef\xbf\xbd", two
bytes longer than the input. -/
theorem C2_invalid_byte_not_kept :
    (∀ upperCase : Nat → Nat,
      (Uppercase upperCase [0x61, 0xFF]).1
        = 0x41 :: utf8.EncodeRune (upperCase 0xFFFD)) ∧
    (∀ upperCase : Nat → Nat, (Uppercase upperCase [0x61, 0xFF]).1 ≠ [0x41, 0xFF]) ∧
    (∀ upperCase : Nat → Nat, upperCase 0xFFFD = 0xFFFD →
      Uppercase upperCase [0x61, 0xFF] = ([0x41, 0xEF, 0xBF, 0xBD], none)) := by
  have h0 : ∀ upperCase : Nat → Nat,
      Uppercase upperCase [0x61, 0xFF]
        = (0x41 :: utf8.EncodeRune (upperCase 0xFFFD), none) := by
    intro upperCase
    have d1 : utf8.DecodeRuneInString [0x61, 0xFF] = (0x61, 1) := by decide
    have d2 : utf8.DecodeRuneInString [0xFF] = (0xFFFD, 1) := by decide
    have u1 : unicode.ToUpper upperCase 0x61 = 0x41 := by simp [unicode.ToUpper]
    have u2 : unicode.ToUpper upperCase 0xFFFD = upperCase 0xFFFD := by
      simp [unicode.ToUpper]
    have e1 : utf8.EncodeRune 0x41 = [0x41] := by decide
    simp [Uppercase, strings.ToUpper, strings.Map, strings.mapHead, strings.mapTail,
      d1, d2, u1, u2, e1, utf8.RuneSelf]
  have h1 : ∀ upperCase : Nat → Nat,
      (Uppercase upperCase [0x61, 0xFF]).1
        = 0x41 :: utf8.EncodeRune (upperCase 0xFFFD) := by
    intro upperCase
    rw [h0]
  refine ⟨h1, ?_, ?_⟩
  · intro upperCase h
    rw [h1 upperCase] at h
    have : utf8.EncodeRune (upperCase 0xFFFD) = [0xFF] := by simpa using h
    exact encode_ne_single_FF _ this
  · intro upperCase h
    rw [h0, h]
    rfl

/-- C2, amended: on a non-empty string `Uppercase` returns, with a nil error,
the encoding of the runes of the string, each replaced in place by its image
under `unicode.ToUpper`, a byte that belongs to no valid UTF-8 sequence counting
as the rune U+FFFD; on a string that is valid UTF-8 the runes are its
characters (encoding them gives the string back); on ASCII `unicode.ToUpper`
turns the lower-case letters into their upper-case counterparts and leaves
every other character as it is, so an ASCII string is mapped byte by byte and
keeps its length; and `Uppercase("aaa, bb")` is `"AAA, BB"`. -/
theorem C2_uppercase_maps_runes (upperCase : Nat → Nat) (s : GoString)
    (hne : s ≠ lit "") :
    Uppercase upperCase s
      = (((utf8.runes s).map (unicode.ToUpper upperCase)).flatMap utf8.EncodeRune, none) ∧
    (utf8.ValidString s = true → (utf8.runes s).flatMap utf8.EncodeRune = s) ∧
    (∀ r, r ≤ 0x7F → unicode.ToUpper upperCase r
      = if 0x61 ≤ r ∧ r ≤ 0x7A then r - 0x20 else r) ∧
    (isASCII s → Uppercase upperCase s = (s.map asciiUpper, none) ∧
      (Uppercase upperCase s).1.length = s.length) ∧
    Uppercase upperCase (lit "aaa, bb") = (lit "AAA, BB", none) := by
  have hne2 : s ≠ [] := hne
  refine ⟨?_, ?_, ?_, ?_, ?_⟩
  · simp only [Uppercase, hne2, if_false, toUpper_runes upperCase s]
  · intro hv
    exact runesLoop_encode s.length s (le_refl _) hv
  · intro r hr
    exact toUpper_ascii_rune upperCase r hr
  · intro ha
    simp only [Uppercase, hne2, if_false, toUpper_ascii upperCase s ha, List.length_map,
      and_self]
  · have ha : isASCII (lit "aaa, bb") := by decide
    simp only [Uppercase, toUpper_ascii upperCase _ ha]
    decide

/-- C2, amended, at an input: "héllo, wörld" in UTF-8, with a case table that
maps é (U+00E9) to É (U+00C9) and ö (U+00F6) to Ö (U+00D6). -/
theorem C2_uppercase_maps_runes_witness :
    utf8.ValidString
        [0x68, 0xC3, 0xA9, 0x6C, 0x6C, 0x6F, 0x2C, 0x20, 0x77, 0xC3, 0xB6, 0x72, 0x6C, 0x64]
      = true ∧
    Uppercase (fun r => if r = 0xE9 then 0xC9 else if r = 0xF6 then 0xD6 else r)
        [0x68, 0xC3, 0xA9, 0x6C, 0x6C, 0x6F, 0x2C, 0x20, 0x77, 0xC3, 0xB6, 0x72, 0x6C, 0x64]
      = ([0x48, 0xC3, 0x89, 0x4C, 0x4C, 0x4F, 0x2C, 0x20, 0x57, 0xC3, 0x96, 0x52, 0x4C, 0x44],
          none) := by
  have h := C2_uppercase_maps_runes
    (fun r => if r = 0xE9 then 0xC9 else if r = 0xF6 then 0xD6 else r)
    [0x68, 0xC3, 0xA9, 0x6C, 0x6C, 0x6F, 0x2C, 0x20, 0x77, 0xC3, 0xB6, 0x72, 0x6C, 0x64]
    (by decide)
  refine ⟨by decide, ?_⟩
  rw [h.1]
  decide

/-! ## Theorems: endpoints -/

/-- C6: on an `uppercaseRequest` and on a `concatRequest` the endpoints return
a response and a nil error; the response has `Err` "empty string" and `V` ""
exactly when `S` is empty, and else `Err` "" and the service's value as `V`. -/
theorem C6_domain_error_in_response (upperCase : Nat → Nat)
    (ureq : uppercaseRequest) (creq : concatRequest) :
    (∃ resp : uppercaseResponse,
      makeUppercaseEndpoint (stringService upperCase) (.ofUppercaseRequest ureq)
        = .ret (.ofUppercaseResponse resp, none) ∧
      ((resp.Err = lit "empty string" ∧ resp.V = lit "") ↔ ureq.S = lit "") ∧
      (ureq.S ≠ lit "" → resp.Err = lit "" ∧ resp.V = (Uppercase upperCase ureq.S).1)) ∧
    (∃ resp : concatResponse,
      makeConcatEndpoint (stringService upperCase) (.ofConcatRequest creq)
        = .ret (.ofConcatResponse resp, none) ∧
      ((resp.Err = lit "empty string" ∧ resp.V = lit "") ↔ creq.S = lit "") ∧
      (creq.S ≠ lit "" → resp.Err = lit "" ∧ resp.V = (Concat creq.S).1)) := by
  have hl : lit "" = ([] : GoString) := rfl
  have hm : lit "empty string" ≠ ([] : GoString) := by decide
  constructor
  · by_cases h : ureq.S = []
    · refine ⟨⟨[], lit "empty string"⟩, ?_, ?_, ?_⟩
      · simp [makeUppercaseEndpoint, stringService, Uppercase, h, ErrEmpty]
      · simp [hl, h]
      · intro hne; exact absurd (hl ▸ h) hne
    · refine ⟨⟨strings.ToUpper upperCase ureq.S, []⟩, ?_, ?_, ?_⟩
      · simp [makeUppercaseEndpoint, stringService, Uppercase, h, hl]
      · simp [hl, h]
        intro e; exact absurd e hm
      · intro _; simp [Uppercase, h, hl]
  · by_cases h : creq.S = []
    · refine ⟨⟨[], lit "empty string"⟩, ?_, ?_, ?_⟩
      · simp [makeConcatEndpoint, stringService, Concat, h, ErrEmpty]
      · simp [hl, h]
      · intro hne; exact absurd (hl ▸ h) hne
    · refine ⟨⟨strings.Replace creq.S (lit " ") (lit "") (-1), []⟩, ?_, ?_, ?_⟩
      · simp [makeConcatEndpoint, stringService, Concat, h, hl]
      · simp [hl, h]
        intro e; exact absurd e hm
      · intro _; simp [Concat, h, hl]

/-! ## Theorems: the search service -/

/-- C7, as stated, fails: in a world where `http.Get` fails, `FetchByName`
returns the error of the GET, not nil, and the endpoint returns the same error
to the transport. -/
theorem C7_get_failure_not_swallowed :
    unreachableWorld.Get (searchURL ++ lit "ecoviva")
      = .error ⟨lit "dial tcp: connection refused"⟩ ∧
    FetchByName unreachableWorld (lit "ecoviva")
      = (PResponse.zero, some ⟨lit "dial tcp: connection refused"⟩) ∧
    (FetchByName unreachableWorld (lit "ecoviva")).2 ≠ none ∧
    makeFetchByNameEndpoint (pService unreachableWorld)
        (.ofFetchByNameRequest ⟨lit "ecoviva"⟩)
      = .ret (.ofPResponse PResponse.zero, some ⟨lit "dial tcp: connection refused"⟩) := by
  refine ⟨rfl, rfl, ?_, rfl⟩
  simp [FetchByName, unreachableWorld]

/-- C7, amended: when the GET fails with `err`, `FetchByName` returns the zero
`PResponse` (no organizations, `total_results` 0) together with `err`, and the
endpoint returns that response and the same non-nil error. -/
theorem C7_get_failure_returned (w : World) (q : GoString) (err : GoError)
    (h : w.Get (searchURL ++ q) = .error err) :
    FetchByName w q = (PResponse.zero, some err) ∧
    makeFetchByNameEndpoint (pService w) (.ofFetchByNameRequest ⟨q⟩)
      = .ret (.ofPResponse PResponse.zero, some err) ∧
    PResponse.zero.Organizations = [] ∧ PResponse.zero.TotalResults = 0 := by
  have e : FetchByName w q = (PResponse.zero, some err) := by
    simp [FetchByName, h]
  refine ⟨e, ?_, rfl, rfl⟩
  simp [makeFetchByNameEndpoint, pService, e]

/-- C7, amended, at an input: the unreachable API and the query "ecoviva". -/
theorem C7_get_failure_returned_witness :
    FetchByName unreachableWorld (lit "ecoviva")
      = (PResponse.zero, some ⟨lit "dial tcp: connection refused"⟩) :=
  (C7_get_failure_returned unreachableWorld (lit "ecoviva")
    ⟨lit "dial tcp: connection refused"⟩ rfl).1

/-- C10: `FetchByName` returns a non-nil error exactly when the GET failed;
when the GET gave a body, it returns the `PResponse` as `Decode` left it and a
nil error, whatever error `Decode` returned. -/
theorem C10_decode_error_discarded (w : World) (q : GoString) :
    ((FetchByName w q).2 ≠ none ↔ ∃ err, w.Get (searchURL ++ q) = .error err) ∧
    (∀ body, w.Get (searchURL ++ q) = .ok body →
      FetchByName w q = ((w.DecodePResponse body PResponse.zero).1, none)) := by
  constructor
  · cases h : w.Get (searchURL ++ q) with
    | error e => simp [FetchByName, h]
    | ok b => simp [FetchByName, h]
  · intro body h
    simp [FetchByName, h]

/-- C10, at an input: the search API answers `{"total_results":3,"err":5}`,
a complete JSON object whose members are the numbers 3 and 5; the string field
that the member `err` names cannot take the number; decoding the body into a
`PResponse` stores 3 and fails on the type of `err`, and `FetchByName` returns
the response with `TotalResults` 3 and a nil error. -/
theorem C10_decode_error_discarded_witness :
    json.Valid mistypedBody = true ∧
    json.readValue mistypedBody
      = .ok (.object [(lit "total_results", .number (lit "3")),
          (lit "err", .number (lit "5"))], []) ∧
    json.Decode (lit "err") (lit "") mistypedBody = (lit "", some json.errType) ∧
    mistypedWorld.DecodePResponse mistypedBody PResponse.zero
      = (⟨[], 3, []⟩, some json.errType) ∧
    FetchByName mistypedWorld (lit "oakland") = (⟨[], 3, []⟩, none) :=
  ⟨by decide, rfl, by decide, rfl,
    (C10_decode_error_discarded mistypedWorld (lit "oakland")).2 _ rfl⟩

/-! ## Theorems: decoders, type assertions and the dispatcher -/

theorem decode_error_of_readValue (name init body : GoString) (err : GoError)
    (h : json.readValue body = .error err) :
    json.Decode name init body = (init, some err) := by
  simp [json.Decode, h]

theorem decodeUppercaseRequest_shape (body : GoString) :
    (∃ err, (json.Decode (lit "s") (lit "") body).2 = some err ∧
        decodeUppercaseRequest body = (.nil, some err)) ∨
    ((json.Decode (lit "s") (lit "") body).2 = none ∧
      ∃ x, decodeUppercaseRequest body = (.ofUppercaseRequest x, none)) := by
  unfold decodeUppercaseRequest
  rcases h : json.Decode (lit "s") (lit "") body with ⟨s, _ | e⟩
  · exact Or.inr ⟨rfl, ⟨s⟩, rfl⟩
  · exact Or.inl ⟨e, rfl, rfl⟩

theorem decodeConcatRequest_shape (body : GoString) :
    (∃ err, (json.Decode (lit "s") (lit "") body).2 = some err ∧
        decodeConcatRequest body = (.nil, some err)) ∨
    ((json.Decode (lit "s") (lit "") body).2 = none ∧
      ∃ x, decodeConcatRequest body = (.ofConcatRequest x, none)) := by
  unfold decodeConcatRequest
  rcases h : json.Decode (lit "s") (lit "") body with ⟨s, _ | e⟩
  · exact Or.inr ⟨rfl, ⟨s⟩, rfl⟩
  · exact Or.inl ⟨e, rfl, rfl⟩

theorem decodeCountRequest_shape (body : GoString) :
    (∃ err, (json.Decode (lit "s") (lit "") body).2 = some err ∧
        decodeCountRequest body = (.nil, some err)) ∨
    ((json.Decode (lit "s") (lit "") body).2 = none ∧
      ∃ x, decodeCountRequest body = (.ofCountRequest x, none)) := by
  unfold decodeCountRequest
  rcases h : json.Decode (lit "s") (lit "") body with ⟨s, _ | e⟩
  · exact Or.inr ⟨rfl, ⟨s⟩, rfl⟩
  · exact Or.inl ⟨e, rfl, rfl⟩

theorem decodeFetchByNameRequest_shape (body : GoString) :
    (∃ err, (json.Decode (lit "search") (lit "") body).2 = some err ∧
        decodeFetchByNameRequest body = (.nil, some err)) ∨
    ((json.Decode (lit "search") (lit "") body).2 = none ∧
      ∃ x, decodeFetchByNameRequest body = (.ofFetchByNameRequest x, none)) := by
  unfold decodeFetchByNameRequest
  rcases h : json.Decode (lit "search") (lit "") body with ⟨s, _ | e⟩
  · exact Or.inr ⟨rfl, ⟨s⟩, rfl⟩
  · exact Or.inl ⟨e, rfl, rfl⟩

theorem uppercaseEndpoint_panic_iff (svc : StringService) (y : Any) :
    makeUppercaseEndpoint svc y = .panic ↔ ¬ ∃ x, y = .ofUppercaseRequest x := by
  cases y <;> simp [makeUppercaseEndpoint]
  rename_i req
  rcases svc.Uppercase req.S with ⟨v, _ | e⟩ <;> simp

theorem concatEndpoint_panic_iff (svc : StringService) (y : Any) :
    makeConcatEndpoint svc y = .panic ↔ ¬ ∃ x, y = .ofConcatRequest x := by
  cases y <;> simp [makeConcatEndpoint]
  rename_i req
  rcases svc.Concat req.S with ⟨v, _ | e⟩ <;> simp

theorem countEndpoint_panic_iff (svc : StringService) (y : Any) :
    makeCountEndpoint svc y = .panic ↔ ¬ ∃ x, y = .ofCountRequest x := by
  cases y <;> simp [makeCountEndpoint]

theorem fetchEndpoint_panic_iff (psvc : PropublicaService) (y : Any) :
    makeFetchByNameEndpoint psvc y = .panic ↔ ¬ ∃ x, y = .ofFetchByNameRequest x := by
  cases y <;> simp [makeFetchByNameEndpoint]
  rename_i req
  rcases psvc.FetchByName req.Name with ⟨v, _ | e⟩ <;> simp

theorem isA_uppercase (y : Any) :
    y.isA .uppercaseRequest = true ↔ ∃ x, y = .ofUppercaseRequest x := by
  cases y <;> simp [Any.isA]

theorem isA_concat (y : Any) :
    y.isA .concatRequest = true ↔ ∃ x, y = .ofConcatRequest x := by
  cases y <;> simp [Any.isA]

theorem isA_count (y : Any) :
    y.isA .countRequest = true ↔ ∃ x, y = .ofCountRequest x := by
  cases y <;> simp [Any.isA]

theorem isA_fetch (y : Any) :
    y.isA .fetchByNameRequest = true ↔ ∃ x, y = .ofFetchByNameRequest x := by
  cases y <;> simp [Any.isA]

/-- When the body starts with a JSON value, `Decode` is the unmarshalling of
that value; what follows the value plays no part. -/
theorem decode_of_readValue (name init body : GoString) (v : json.JValue)
    (rest : GoString) (h : json.readValue body = .ok (v, rest)) :
    json.Decode name init body = json.unmarshal name init v := by
  simp [json.Decode, h]

/-- Every registered decoder is `Decode` into a struct with one string field,
followed by the conversion of the struct to `interface{}`. -/
theorem route_decoder_shape (w : World) (r : Route)
    (hr : r ∈ routes w ∨ r ∈ routesStringsvc w) :
    ∃ (name : GoString) (mk : GoString → Any), ∀ body,
      r.dec body =
        match json.Decode name (lit "") body with
        | (_, some err) => (.nil, some err)
        | (s, none) => (mk s, none) := by
  have hmem : r = concatHandler w ∨ r = uppercaseHandler w ∨ r = countHandler w ∨
      r = fetchByNameHandler w := by
    rcases hr with h | h
    · simpa [routes] using h
    · simp only [routesStringsvc, List.mem_cons, List.mem_singleton, List.not_mem_nil,
        or_false] at h
      rcases h with h | h | h
      · exact Or.inl h
      · exact Or.inr (Or.inl h)
      · exact Or.inr (Or.inr (Or.inl h))
  rcases hmem with h | h | h | h <;> subst h
  · exact ⟨lit "s", fun s => .ofConcatRequest ⟨s⟩, fun _ => rfl⟩
  · exact ⟨lit "s", fun s => .ofUppercaseRequest ⟨s⟩, fun _ => rfl⟩
  · exact ⟨lit "s", fun s => .ofCountRequest ⟨s⟩, fun _ => rfl⟩
  · exact ⟨lit "search", fun s => .ofFetchByNameRequest ⟨s⟩, fun _ => rfl⟩

/-- What a registered decoder returns is determined by the first JSON value of
the body. -/
theorem route_decodes_first_value (w : World) (r : Route)
    (hr : r ∈ routes w ∨ r ∈ routesStringsvc w) :
    ∃ (name : GoString) (mk : GoString → Any), ∀ body v rest,
      json.readValue body = .ok (v, rest) →
      r.dec body =
        match json.unmarshal name (lit "") v with
        | (_, some err) => (.nil, some err)
        | (s, none) => (mk s, none) := by
  obtain ⟨name, mk, h⟩ := route_decoder_shape w r hr
  refine ⟨name, mk, ?_⟩
  intro body v rest hv
  rw [h body, decode_of_readValue name (lit "") body v rest hv]

/-- Every registered handler pairs a decoder that yields one request type, or
`nil` and the error of `Decode`, with an endpoint that asserts that type. -/
theorem route_typed (w : World) (r : Route)
    (hr : r ∈ routes w ∨ r ∈ routesStringsvc w) :
    ∃ (T : RequestType) (name : GoString),
      (∀ body,
        (∃ err, (json.Decode name (lit "") body).2 = some err ∧
          r.dec body = (.nil, some err)) ∨
        ((json.Decode name (lit "") body).2 = none ∧
          ∃ req, req.isA T = true ∧ r.dec body = (req, none))) ∧
      (∀ y, r.e y = .panic ↔ y.isA T = false) := by
  have hmem : r = concatHandler w ∨ r = uppercaseHandler w ∨ r = countHandler w ∨
      r = fetchByNameHandler w := by
    rcases hr with h | h
    · simpa [routes] using h
    · simp only [routesStringsvc, List.mem_cons, List.mem_singleton, List.not_mem_nil,
        or_false] at h
      rcases h with h | h | h
      · exact Or.inl h
      · exact Or.inr (Or.inl h)
      · exact Or.inr (Or.inr (Or.inl h))
  rcases hmem with h | h | h | h <;> subst h
  · refine ⟨.concatRequest, lit "s", ?_, ?_⟩
    · intro body
      rcases decodeConcatRequest_shape body with ⟨e, h1, h2⟩ | ⟨h0, x, h2⟩
      · exact Or.inl ⟨e, h1, h2⟩
      · exact Or.inr ⟨h0, _, by rfl, h2⟩
    · intro y
      rw [show (concatHandler w).e = makeConcatEndpoint (stringService w.upperCase) from rfl,
        concatEndpoint_panic_iff, ← isA_concat]
      simp
  · refine ⟨.uppercaseRequest, lit "s", ?_, ?_⟩
    · intro body
      rcases decodeUppercaseRequest_shape body with ⟨e, h1, h2⟩ | ⟨h0, x, h2⟩
      · exact Or.inl ⟨e, h1, h2⟩
      · exact Or.inr ⟨h0, _, by rfl, h2⟩
    · intro y
      rw [show (uppercaseHandler w).e = makeUppercaseEndpoint (stringService w.upperCase)
        from rfl, uppercaseEndpoint_panic_iff, ← isA_uppercase]
      simp
  · refine ⟨.countRequest, lit "s", ?_, ?_⟩
    · intro body
      rcases decodeCountRequest_shape body with ⟨e, h1, h2⟩ | ⟨h0, x, h2⟩
      · exact Or.inl ⟨e, h1, h2⟩
      · exact Or.inr ⟨h0, _, by rfl, h2⟩
    · intro y
      rw [show (countHandler w).e = makeCountEndpoint (stringService w.upperCase) from rfl,
        countEndpoint_panic_iff, ← isA_count]
      simp
  · refine ⟨.fetchByNameRequest, lit "search", ?_, ?_⟩
    · intro body
      rcases decodeFetchByNameRequest_shape body with ⟨e, h1, h2⟩ | ⟨h0, x, h2⟩
      · exact Or.inl ⟨e, h1, h2⟩
      · exact Or.inr ⟨h0, _, by rfl, h2⟩
    · intro y
      rw [show (fetchByNameHandler w).e = makeFetchByNameEndpoint (pService w) from rfl,
        fetchEndpoint_panic_iff, ← isA_fetch]
      simp

theorem serve_no_crash (w : World) (r : Route)
    (hr : r ∈ routes w ∨ r ∈ routesStringsvc w) (body : GoString) :
    (serve r body).reply ≠ .crash := by
  obtain ⟨T, name, hdec, hpanic⟩ := route_typed w r hr
  rcases hdec body with ⟨e, _, h2⟩ | ⟨_, req, hT, h2⟩
  · simp [serve, h2]
  · have hnp : r.e req ≠ .panic := by
      intro hp
      rw [hpanic req] at hp
      rw [hT] at hp
      exact absurd hp (by decide)
    simp only [serve, h2]
    rcases hre : r.e req with ⟨resp, _ | e⟩ | _
    · simp
    · simp
    · exact absurd hre hnp

/-- C9: for each handler that `main` registers, a value that the decoder
returns with a nil error has the request type `T` that the endpoint asserts (the
endpoint panics on every value of another dynamic type and on no value of type
`T`), so the endpoint, invoked on the decoded value, does not panic. -/
theorem C9_decoded_request_has_asserted_type (w : World) (r : Route)
    (body : GoString) (req : Any)
    (hr : r ∈ routes w ∨ r ∈ routesStringsvc w) (hd : r.dec body = (req, none)) :
    (∃ T : RequestType, req.isA T = true ∧ ∀ y, r.e y = .panic ↔ y.isA T = false) ∧
    r.e req ≠ .panic := by
  obtain ⟨T, name, hdec, hpanic⟩ := route_typed w r hr
  have hT : req.isA T = true := by
    rcases hdec body with ⟨e, _, h2⟩ | ⟨_, req1, hT, h2⟩
    · rw [hd] at h2; simp at h2
    · rw [hd] at h2
      have : req = req1 := by simpa using congrArg Prod.fst h2
      rw [this]; exact hT
  refine ⟨⟨T, hT, hpanic⟩, ?_⟩
  intro hp
  rw [hpanic req, hT] at hp
  exact absurd hp (by decide)

/-- C9, at an input: the body `{"s":"aaa, bb"}` sent to `/uppercase`. -/
theorem C9_decoded_request_has_asserted_type_witness :
    decodeUppercaseRequest (lit "\x7b\"s\":\"aaa, bb\"\x7d")
      = (.ofUppercaseRequest ⟨lit "aaa, bb"⟩, none) ∧
    (uppercaseHandler unreachableWorld).e (.ofUppercaseRequest ⟨lit "aaa, bb"⟩) ≠ .panic ∧
    (uppercaseHandler unreachableWorld).e (.ofUppercaseRequest ⟨lit "aaa, bb"⟩)
      = .ret (.ofUppercaseResponse ⟨lit "AAA, BB", lit ""⟩, none) := by
  have h := C9_decoded_request_has_asserted_type unreachableWorld
    (uppercaseHandler unreachableWorld) (lit "\x7b\"s\":\"aaa, bb\"\x7d")
    (.ofUppercaseRequest ⟨lit "aaa, bb"⟩) (Or.inl (by simp [routes])) (by decide)
  exact ⟨by decide, h.2, by decide⟩

theorem valid_false_cases (body : GoString) (h : json.Valid body = false) :
    (∃ err, json.readValue body = .error err) ∨
    (∃ v rest, json.readValue body = .ok (v, rest) ∧ json.skipSpace rest ≠ []) := by
  unfold json.Valid at h
  rcases hr : json.readValue body with e | ⟨v, rest⟩
  · exact Or.inl ⟨e, rfl⟩
  · rw [hr] at h
    refine Or.inr ⟨v, rest, rfl, ?_⟩
    intro hn
    simp [hn] at h

/-- C8, as stated, fails: the body `{"s":"a","search":"a"}]` is not valid JSON,
yet each of the four decoders returns a request and a nil error, and each of
the four handlers goes on to invoke its endpoint on that request. -/
theorem C8_trailing_garbage_accepted :
    json.Valid trailingGarbageBody = false ∧
    decodeUppercaseRequest trailingGarbageBody = (.ofUppercaseRequest ⟨lit "a"⟩, none) ∧
    decodeConcatRequest trailingGarbageBody = (.ofConcatRequest ⟨lit "a"⟩, none) ∧
    decodeCountRequest trailingGarbageBody = (.ofCountRequest ⟨lit "a"⟩, none) ∧
    decodeFetchByNameRequest trailingGarbageBody
      = (.ofFetchByNameRequest ⟨lit "a"⟩, none) ∧
    serve (uppercaseHandler unreachableWorld) trailingGarbageBody
      = ⟨.success (.ofUppercaseResponse ⟨lit "A", lit ""⟩),
          [.ofUppercaseRequest ⟨lit "a"⟩]⟩ ∧
    serve (concatHandler unreachableWorld) trailingGarbageBody
      = ⟨.success (.ofConcatResponse ⟨lit "a", lit ""⟩), [.ofConcatRequest ⟨lit "a"⟩]⟩ ∧
    serve (countHandler unreachableWorld) trailingGarbageBody
      = ⟨.success (.ofCountResponse ⟨1⟩), [.ofCountRequest ⟨lit "a"⟩]⟩ ∧
    (serve (fetchByNameHandler unreachableWorld) trailingGarbageBody).invoked
      = [.ofFetchByNameRequest ⟨lit "a"⟩] := by
  refine ⟨by decide, by decide, by decide, by decide, by decide, by decide, by decide,
    by decide, by decide⟩

/-- C8, amended: on every handler, a body that does not start (after white
space) with a complete JSON value makes the decoder return `nil` and the error
of the scan, which is an error of the library and never the model's recursion
bound; whenever the decoder returns an error the request value is `nil`,
the handler answers with a client error and the endpoint is not invoked; no body
makes a handler crash; a body that is not valid JSON either has no leading
value or has one followed by more than white space; and the decoder does not
look at what follows the leading value: what it returns is what unmarshalling
that value gives, so any other body that starts with the same value is decoded
and handled in the same way. -/
theorem C8_undecodable_body_is_client_error (w : World) (r : Route) (body : GoString)
    (hr : r ∈ routes w ∨ r ∈ routesStringsvc w) :
    (∀ err, json.readValue body = .error err →
      err ≠ json.errFuel ∧
      r.dec body = (.nil, some err) ∧ serve r body = ⟨.clientError err, []⟩) ∧
    (∀ err, (r.dec body).2 = some err →
      r.dec body = (.nil, some err) ∧ serve r body = ⟨.clientError err, []⟩) ∧
    (serve r body).reply ≠ .crash ∧
    (json.Valid body = false →
      (∃ err, json.readValue body = .error err) ∨
      (∃ v rest, json.readValue body = .ok (v, rest) ∧ json.skipSpace rest ≠ [])) ∧
    (∃ (name : GoString) (mk : GoString → Any), ∀ v rest,
      json.readValue body = .ok (v, rest) →
      r.dec body =
        match json.unmarshal name (lit "") v with
        | (_, some err) => (.nil, some err)
        | (s, none) => (mk s, none)) ∧
    (∀ v rest body2 rest2,
      json.readValue body = .ok (v, rest) → json.readValue body2 = .ok (v, rest2) →
      r.dec body2 = r.dec body ∧ serve r body2 = serve r body) := by
  obtain ⟨T, name, hdec, _⟩ := route_typed w r hr
  obtain ⟨name2, mk, hfirst⟩ := route_decodes_first_value w r hr
  have h2 : ∀ err, (r.dec body).2 = some err →
      r.dec body = (.nil, some err) ∧ serve r body = ⟨.clientError err, []⟩ := by
    intro err he
    rcases hdec body with ⟨e, _, hd⟩ | ⟨_, req, _, hd⟩
    · rw [hd] at he
      have : e = err := by simpa using he
      subst this
      exact ⟨hd, by simp [serve, hd]⟩
    · rw [hd] at he; simp at he
  refine ⟨?_, h2, serve_no_crash w r hr body, valid_false_cases body,
    ⟨name2, mk, fun v rest hv => hfirst body v rest hv⟩, ?_⟩
  · intro err hbad
    refine ⟨fun e => readValue_never_out_of_fuel body (e ▸ hbad), ?_⟩
    apply h2
    rcases hdec body with ⟨e, he, hd⟩ | ⟨h0, _⟩
    · rw [decode_error_of_readValue name (lit "") body err hbad] at he
      rw [hd]
      simpa using he.symm
    · rw [decode_error_of_readValue name (lit "") body err hbad] at h0
      simp at h0
  · intro v rest body2 rest2 hv hv2
    have e : r.dec body2 = r.dec body := by
      rw [hfirst body v rest hv, hfirst body2 v rest2 hv2]
    refine ⟨e, ?_⟩
    simp only [serve, e]

/-- C8, amended, at two inputs: the body `hello` sent to `/fetch` has no leading
value and is answered with a client error; the body `{"s":"a","search":"a"}]`
sent to `/uppercase` starts with the value that the body
`{"s":"a","search":"a"}` consists of, and is decoded and handled like it. -/
theorem C8_undecodable_body_is_client_error_witness :
    json.readValue (lit "hello") = .error json.errSyntax ∧
    serve (fetchByNameHandler unreachableWorld) (lit "hello")
      = ⟨.clientError json.errSyntax, []⟩ ∧
    json.Valid objectBody = true ∧ json.Valid trailingGarbageBody = false ∧
    decodeUppercaseRequest trailingGarbageBody = decodeUppercaseRequest objectBody ∧
    serve (uppercaseHandler unreachableWorld) trailingGarbageBody
      = serve (uppercaseHandler unreachableWorld) objectBody := by
  have h := C8_undecodable_body_is_client_error unreachableWorld
    (fetchByNameHandler unreachableWorld) (lit "hello") (Or.inl (by simp [routes]))
  have g := (C8_undecodable_body_is_client_error unreachableWorld
    (uppercaseHandler unreachableWorld) objectBody (Or.inl (by simp [routes]))).2.2.2.2.2
    (.object [(lit "s", .string (lit "a")), (lit "search", .string (lit "a"))])
    [] trailingGarbageBody (lit "]") rfl rfl
  exact ⟨rfl, (h.1 json.errSyntax rfl).2.2, by decide, by decide, g.1, g.2⟩
